import Mathlib

/-!
Shallow embedding of the slide rendering engine of this repository
(`src/main.py`, class `SlideRenderer`: `get_font`, `load_image`,
`create_background`, `parse_color`, `draw_photo_element`,
`draw_text_element`, `render_slide`).

Modelling conventions:
* Python runtime values flowing through the loosely typed dict bags are
  modelled by `Val`; dictionaries are association lists over string keys.
* CPython float arithmetic is modelled by exact rational arithmetic over `ℚ`;
  `int(...)` applied to a number is truncation toward zero (`pytrunc`).
  Float literals `0.4`, `0.6`, `1.2` become the rationals `2/5`, `3/5`, `6/5`.
* Operations that can raise are modelled in `Except PyError`; a `try/except`
  block is modelled by mapping the error case to the fallback value.
  CPython accepts some exotic spellings in `int(s)` / `float(s)` / `int(s,16)`
  (surrounding whitespace, underscores, exponents); those spellings are
  modelled as parse failures, which no claim observes, since the only
  observable used by the engine is parse-success versus `ValueError`.
  The multiplication `max(0, dim) * pos` with a string-valued `pos`
  (CPython sequence repetition) is modelled as an immediate `TypeError`:
  in the engine that product always flows into `/ 100`, which raises
  `TypeError` on the repeated string anyway.
* PIL images are `PILImage`: a mode string, dimensions, and a total pixel
  function.  Resampling content (`Image.resize`) and glyph rasterisation
  (`ImageDraw.text`) carry no engine-visible arithmetic, so their pixel
  content comes from an ambient `World`; dimensions and all cropping,
  offset and compositing arithmetic are modelled exactly.
* Ambient effects (filesystem probes for fonts, HTTP fetches, base64 and
  image decoding) are fields of `World`.
-/

namespace Carousel

/-- Python runtime values as they flow through the slide/element dicts. -/
inductive Val where
  | vNone
  | vBool (b : Bool)
  | vInt (n : Int)
  | vFloat (q : ℚ)
  | vStr (s : String)
  | vList (l : List Val)
  | vDict (d : List (String × Val))

abbrev PyDict := List (String × Val)

/-- `d.get(k, dflt)` on a Python dict. -/
def dictGet (d : PyDict) (k : String) (dflt : Val) : Val :=
  match d.find? (fun p => p.1 == k) with
  | some p => p.2
  | none => dflt

/-- Python truthiness. -/
def pyTruthy : Val → Bool
  | .vNone => false
  | .vBool b => b
  | .vInt n => decide (n ≠ 0)
  | .vFloat q => decide (q ≠ 0)
  | .vStr s => decide (s ≠ "")
  | .vList l => !l.isEmpty
  | .vDict d => !d.isEmpty

/-- The Python exception classes raised by the engine. -/
inductive PyError where
  | typeError
  | valueError
  | attributeError
  | zeroDivError
deriving DecidableEq

/-- Numeric view of a value (int, float and bool are numbers in Python). -/
def toNum : Val → Option ℚ
  | .vInt n => some (n : ℚ)
  | .vFloat q => some q
  | .vBool b => some (if b then 1 else 0)
  | _ => none

/-- Numeric coercion for arithmetic contexts; `TypeError` otherwise. -/
def toNumE (v : Val) : Except PyError ℚ :=
  match toNum v with
  | some q => .ok q
  | none => .error .typeError

/-- Attribute access `.get` on a non-dict raises `AttributeError`. -/
def asDictE : Val → Except PyError PyDict
  | .vDict d => .ok d
  | _ => .error .attributeError

/-- `re.finditer` demands a string; `TypeError` otherwise. -/
def asStrE : Val → Except PyError String
  | .vStr s => .ok s
  | _ => .error .typeError

/-- Python `int()` truncation toward zero of a float. -/
def pytrunc (q : ℚ) : Int := if 0 ≤ q then ⌊q⌋ else ⌈q⌉

/-- Decimal digit-string value, `none` unless nonempty and all digits. -/
def decNat? (cs : List Char) : Option Nat :=
  if cs.isEmpty then none
  else if cs.all (·.isDigit) then some (cs.foldl (fun a c => 10 * a + (c.toNat - 48)) 0)
  else none

/-- Python `int(s)` on a string (sign plus decimal digits). -/
def pyIntOfStr (s : String) : Option Int :=
  match s.data with
  | '-' :: rest => (decNat? rest).map (fun n => -(n : Int))
  | '+' :: rest => (decNat? rest).map (fun n => (n : Int))
  | cs => (decNat? cs).map (fun n => (n : Int))

/-- Unsigned part of Python `float(s)`: digits with an optional point. -/
def pyFloatCore (cs : List Char) : Option ℚ :=
  let ip := cs.takeWhile (· ≠ '.')
  match cs.dropWhile (· ≠ '.') with
  | [] => (decNat? ip).map (fun n => (n : ℚ))
  | '.' :: fp =>
    if fp.any (· = '.') then none
    else if ip.isEmpty && fp.isEmpty then none
    else if ip.all (·.isDigit) && fp.all (·.isDigit) then
      some ((ip.foldl (fun a c => 10 * a + (c.toNat - 48)) 0 : ℚ)
        + (fp.foldl (fun a c => 10 * a + (c.toNat - 48)) 0 : ℚ) / (10 : ℚ) ^ fp.length)
    else none
  | _ => none

/-- Python `int(v)`. -/
def pyIntE : Val → Except PyError Int
  | .vInt n => .ok n
  | .vFloat q => .ok (pytrunc q)
  | .vBool b => .ok (if b then 1 else 0)
  | .vStr s =>
    match pyIntOfStr s with
    | some n => .ok n
    | none => .error .valueError
  | _ => .error .typeError

/-- Python `float(v)`. -/
def pyFloatE : Val → Except PyError ℚ
  | .vInt n => .ok (n : ℚ)
  | .vFloat q => .ok q
  | .vBool b => .ok (if b then 1 else 0)
  | .vStr s =>
    match (match s.data with
           | '-' :: rest => (pyFloatCore rest).map (fun q => -q)
           | '+' :: rest => pyFloatCore rest
           | cs => pyFloatCore cs) with
    | some q => .ok q
    | none => .error .valueError
  | _ => .error .typeError

/-- Python `str(v)` as observed by the engine.  Only the string image of
scalars is ever compared against the weight table or used in font paths;
the repr of floats and containers is abbreviated (a float repr is never a
bare digit string, which is all the weight-table lookup observes). -/
def pyStrOfVal : Val → String
  | .vStr s => s
  | .vInt n => toString n
  | .vFloat q => toString q ++ ".0"
  | .vBool b => if b then "True" else "False"
  | .vNone => "None"
  | .vList _ => "<list>"
  | .vDict _ => "<dict>"

/-- Python `v == "lit"` for a string literal: false on type mismatch. -/
def pyEqStr (v : Val) (s : String) : Bool :=
  match v with
  | .vStr t => t == s
  | _ => false

/-- Hex digit value. -/
def hexDigit? (c : Char) : Option Nat :=
  if c.isDigit then some (c.toNat - 48)
  else if 'a' ≤ c ∧ c ≤ 'f' then some (c.toNat - 87)
  else if 'A' ≤ c ∧ c ≤ 'F' then some (c.toNat - 55)
  else none

/-- Python `int(s, 16)`: nonempty all-hex digit strings. -/
def hexNat? (cs : List Char) : Option Nat :=
  if cs.isEmpty then none
  else cs.foldl (fun a c => do
    let x ← a
    let d ← hexDigit? c
    pure (16 * x + d)) (some 0)

/-- Python string slice `s[i:j]` for `0 ≤ i ≤ j`, as a char list. -/
def pySlice (s : String) (i j : Nat) : List Char := (s.data.drop i).take (j - i)

/-- One RGBA sample.  Channels are unbounded integers: the engine computes
channel values and hands them to PIL; any byte quantisation applied inside
PIL is outside the engine. -/
structure Pixel where
  r : Int
  g : Int
  b : Int
  a : Int

/-- A PIL image: mode tag, dimensions, and a total pixel function. -/
structure PILImage where
  mode : String
  width : Nat
  height : Nat
  px : Int → Int → Pixel

/-- In-bounds pixel read; out-of-bounds regions read as zero (the fill PIL
uses for crop boxes that exceed the source image). -/
def getpx (img : PILImage) (x y : Int) : Pixel :=
  if 0 ≤ x ∧ x < (img.width : Int) ∧ 0 ≤ y ∧ y < (img.height : Int) then img.px x y
  else ⟨0, 0, 0, 0⟩

/-- `Image.new(mode, (w, h), c)`. -/
def imgNew (mode : String) (w h : Nat) (c : Pixel) : PILImage := ⟨mode, w, h, fun _ _ => c⟩

/-- `img.crop((l, t, r, b))`: dimensions are exactly the box size. -/
def cropImg (img : PILImage) (l t r b : Int) : PILImage :=
  ⟨img.mode, (r - l).toNat, (b - t).toNat, fun x y => getpx img (x + l) (y + t)⟩

/-- `img.convert(m)` for the two modes the engine uses: dropping to RGB
forces full alpha, and promoting an RGB image to RGBA makes it opaque. -/
def convertImg (img : PILImage) (m : String) : PILImage :=
  ⟨m, img.width, img.height, fun x y =>
    let p := img.px x y
    if m = "RGB" then ⟨p.r, p.g, p.b, 255⟩
    else if img.mode = "RGB" then ⟨p.r, p.g, p.b, 255⟩
    else p⟩

/-- Alpha-over of one source pixel onto one backdrop pixel
(`Image.alpha_composite`), with exact rational intermediate values. -/
def overPx (bot top : Pixel) : Pixel :=
  let ta : ℚ := top.a
  let ba : ℚ := bot.a
  let oa : ℚ := ta + ba * (255 - ta) / 255
  if oa = 0 then ⟨0, 0, 0, 0⟩
  else
    ⟨pytrunc (((top.r : ℚ) * ta + (bot.r : ℚ) * ba * (255 - ta) / 255) / oa),
     pytrunc (((top.g : ℚ) * ta + (bot.g : ℚ) * ba * (255 - ta) / 255) / oa),
     pytrunc (((top.b : ℚ) * ta + (bot.b : ℚ) * ba * (255 - ta) / 255) / oa),
     pytrunc oa⟩

/-- `Image.alpha_composite(bot, top)` pixel-wise. -/
def alphaComposite (bot top : PILImage) : PILImage :=
  ⟨bot.mode, bot.width, bot.height, fun x y => overPx (bot.px x y) (top.px x y)⟩

/-- `canvas.paste(img, (ox, oy))`, optionally through `img`'s own alpha
channel as mask (the only mask the engine ever passes). -/
def pasteImg (canvas img : PILImage) (ox oy : Int) (withMask : Bool) : PILImage :=
  ⟨canvas.mode, canvas.width, canvas.height, fun x y =>
    if ox ≤ x ∧ x < ox + (img.width : Int) ∧ oy ≤ y ∧ y < oy + (img.height : Int) then
      let p := img.px (x - ox) (y - oy)
      let c := canvas.px x y
      if withMask then
        ⟨pytrunc (((p.r : ℚ) * p.a + (c.r : ℚ) * (255 - p.a)) / 255),
         pytrunc (((p.g : ℚ) * p.a + (c.g : ℚ) * (255 - p.a)) / 255),
         pytrunc (((p.b : ℚ) * p.a + (c.b : ℚ) * (255 - p.a)) / 255),
         c.a⟩
      else ⟨p.r, p.g, p.b, c.a⟩
    else canvas.px x y⟩

/-- `img.putalpha(mask)`: the single-channel mask value becomes alpha. -/
def putalpha (img mask : PILImage) : PILImage :=
  ⟨img.mode, img.width, img.height, fun x y =>
    let p := img.px x y
    ⟨p.r, p.g, p.b, (mask.px x y).r⟩⟩

/-- Membership in the filled rounded rectangle `[0, w] × [0, h]` with
corner radius `rad` (geometric embedding of `ImageDraw.rounded_rectangle`). -/
def inRoundedRect (w h rad x y : Int) : Bool :=
  if x < 0 ∨ y < 0 ∨ w < x ∨ h < y then false
  else if x < rad ∧ y < rad then decide ((x - rad) ^ 2 + (y - rad) ^ 2 ≤ rad ^ 2)
  else if w - rad < x ∧ y < rad then decide ((x - (w - rad)) ^ 2 + (y - rad) ^ 2 ≤ rad ^ 2)
  else if x < rad ∧ h - rad < y then decide ((x - rad) ^ 2 + (y - (h - rad)) ^ 2 ≤ rad ^ 2)
  else if w - rad < x ∧ h - rad < y then
    decide ((x - (w - rad)) ^ 2 + (y - (h - rad)) ^ 2 ≤ rad ^ 2)
  else true

/-- The single-channel rounded-rectangle mask built for `borderRadius`. -/
def roundedRectMask (w h : Nat) (rad : Int) : PILImage :=
  ⟨"L", w, h, fun x y =>
    let v : Int := if inRoundedRect w h rad x y then 255 else 0
    ⟨v, v, v, v⟩⟩

/-- A resolved font: a truetype file at a pixel size, or PIL's built-in
`load_default()` bitmap font. -/
inductive FontHandle where
  | truetype (path : String) (size : Int)
  | loadDefault
deriving DecidableEq

/-- Outcome of `requests.get`: a response (status and body bytes), a raised
network error, or a timeout. -/
inductive HttpResult where
  | success (status : Nat) (body : String)
  | netErr
  | timeout

/-- The ambient effects of the engine. -/
structure World where
  /-- `os.path.exists`. -/
  pathExists : String → Bool
  /-- whether `ImageFont.truetype(path, size)` succeeds. -/
  fontLoads : String → Int → Bool
  /-- `base64.b64decode`, `none` on a raised `binascii.Error`. -/
  b64Decode : String → Option String
  /-- `Image.open` over a byte string, `none` when decoding raises. -/
  decodeBytes : String → Option PILImage
  /-- `requests.get(url, timeout=30)`. -/
  httpGet : String → HttpResult
  /-- pixel content of `Image.resize` (LANCZOS resampling). -/
  resample : PILImage → Nat → Nat → Int → Int → Pixel
  /-- `draw.textbbox((0,0), s, font)[2] - [0]`: measured advance width. -/
  textWidth : FontHandle → String → Int
  /-- `draw.text((x, y), s, font, fill)` as a canvas transformer. -/
  drawText : PILImage → Int → Int → String → FontHandle → Int × Int × Int → PILImage

/-- `img.resize((nw, nh), LANCZOS)`: exact target dimensions, resampled
content from the world. -/
def resizeImg (w : World) (img : PILImage) (nw nh : Nat) : PILImage :=
  ⟨img.mode, nw, nh, w.resample img nw nh⟩

/-! ### Font resolution (`SlideRenderer.get_font`) -/

/-- The `weight_map` table. -/
def weightMap : List (String × String) :=
  [("300", "Light"), ("400", "Regular"), ("500", "Medium"), ("600", "SemiBold"),
   ("700", "Bold"), ("800", "ExtraBold"), ("900", "Black")]

/-- `weight_map.get(str(weight), "Regular")`. -/
def weightName (weight : String) : String :=
  match weightMap.find? (fun p => p.1 == weight) with
  | some p => p.2
  | none => "Regular"

/-- `font_name`: the styled name is built only when `family == "Inter"`. -/
def fontName (family : Val) (wn : String) : String :=
  if pyEqStr family "Inter" ∧ wn ≠ "Regular" then "Inter-" ++ wn else pyStrOfVal family

def dejavuBold : String := "/usr/share/fonts/truetype/dejavu/DejaVuSans-Bold.ttf"

def dejavuSans : String := "/usr/share/fonts/truetype/dejavu/DejaVuSans.ttf"

/-- The candidate path list tried by `get_font` (the `None` placeholder for
light weights is dropped, as the loop skips falsy paths). -/
def fontPaths (fn : String) (wn : String) : List String :=
  ["fonts/" ++ fn ++ ".otf", "fonts/" ++ fn ++ ".ttf", "fonts/Inter.otf", "fonts/Inter-Regular.otf"]
  ++ (if wn = "Bold" ∨ wn = "ExtraBold" ∨ wn = "Black" ∨ wn = "SemiBold"
      then [dejavuBold] else [])
  ++ [dejavuSans]

/-- First candidate that exists and loads wins; `load_default()` otherwise. -/
def resolveFont (w : World) (size : Int) : List String → FontHandle
  | [] => .loadDefault
  | p :: rest =>
    if w.pathExists p ∧ w.fontLoads p size then .truetype p size else resolveFont w size rest

abbrev FontCache := List (String × FontHandle)

/-- `SlideRenderer.get_font`, threading the `font_cache` explicitly. -/
def get_font (w : World) (cache : FontCache) (family : Val) (size : Int) (weight : String) :
    FontHandle × FontCache :=
  let wn := weightName weight
  let fn := fontName family wn
  let key := fn ++ "_" ++ toString size
  match cache.find? (fun p => p.1 == key) with
  | some p => (p.2, cache)
  | none =>
    let h := resolveFont w size (fontPaths fn wn)
    (h, (key, h) :: cache)

/-! ### Image loading (`SlideRenderer.load_image`) -/

/-- `s.startswith(p)`. -/
def pyStartsWith (s p : String) : Bool := p.data.isPrefixOf s.data

/-- `source.split(",", 1)` when a comma is present: prefix and remainder. -/
def splitFirstComma (s : String) : Option (List Char × List Char) :=
  if s.data.any (· = ',') then
    some (s.data.takeWhile (· ≠ ','), (s.data.dropWhile (· ≠ ',')).tail)
  else none

/-- `SlideRenderer.load_image`.  Total: the function body is wrapped in a
blanket `except Exception: return None`, so every failure (missing comma,
base64 error, network error, timeout, HTTP error status, undecodable bytes,
and even `startswith` on a truthy non-string) collapses to `none`.
`requests.Response.raise_for_status` raises `HTTPError` exactly for the
client-error range `400 <= status < 500` and the server-error range
`500 <= status < 600`; any other status (1xx/2xx/3xx redirects, and exotic
statuses of 600 and above, which `http.client` accepts) falls through and
the body is decoded like a success. -/
def load_image (w : World) (v : Val) : Option PILImage :=
  if pyTruthy v = false then none
  else
    match v with
    | .vStr s =>
      if pyStartsWith s "data:" then
        match splitFirstComma s with
        | none => none
        | some (_, payload) =>
          match w.b64Decode (String.mk payload) with
          | none => none
          | some bytes => w.decodeBytes bytes
      else if pyStartsWith s "http" then
        match w.httpGet s with
        | .success status body =>
          if 400 ≤ status ∧ status < 600 then none else w.decodeBytes body
        | .netErr => none
        | .timeout => none
      else none
    | _ => none

/-! ### Background compositing (`SlideRenderer.create_background`) -/

def CANVAS_W : Nat := 1080

def CANVAS_H : Nat := 1350

/-- The background fill parse: `int(color[1:3], 16)` etc. inside
`try/except`, white on any failure (including non-string values, whose
slicing raises inside the same `try`). -/
def bgColor (v : Val) : Int × Int × Int :=
  match v with
  | .vStr s =>
    match hexNat? (pySlice s 1 3), hexNat? (pySlice s 3 5), hexNat? (pySlice s 5 7) with
    | some r, some g, some b => ((r : Int), (g : Int), (b : Int))
    | _, _, _ => (255, 255, 255)
  | _ => (255, 255, 255)

/-- Cover-fit dimensions of the background photo: base dimensions from the
aspect-ratio comparison, then the zoom factor, `int()` after each step. -/
def bgFitDims (iw ih : Nat) (zoom : ℚ) : Int × Int :=
  let r : ℚ := (iw : ℚ) / (ih : ℚ)
  if (CANVAS_W : ℚ) / (CANVAS_H : ℚ) < r then
    (pytrunc ((pytrunc ((CANVAS_H : ℚ) * r) : ℚ) * zoom), pytrunc ((CANVAS_H : ℚ) * zoom))
  else
    (pytrunc ((CANVAS_W : ℚ) * zoom), pytrunc ((pytrunc ((CANVAS_W : ℚ) / r) : ℚ) * zoom))

/-- `zoom = max(1, bg.get("photoZoom", 1))`; `TypeError` when the value is
not comparable with an int. -/
def bgZoom (v : Val) : Except PyError ℚ := do
  let q ← toNumE v
  pure (max 1 q)

/-- The photo branch of `create_background`: load already succeeded. -/
def bgPhotoCanvas (w : World) (bg : PyDict) (img : PILImage) : Except PyError PILImage := do
  let pos ← asDictE (dictGet bg "photoPosition" (.vDict [("x", .vInt 50), ("y", .vInt 50)]))
  let zoom ← bgZoom (dictGet bg "photoZoom" (.vInt 1))
  if img.height = 0 then .error .zeroDivError
  else
    let r : ℚ := (img.width : ℚ) / (img.height : ℚ)
    if ¬ (CANVAS_W : ℚ) / (CANVAS_H : ℚ) < r ∧ r = 0 then .error .zeroDivError
    else
      let nwh := bgFitDims img.width img.height zoom
      let img2 := resizeImg w img nwh.1.toNat nwh.2.toNat
      let pxq ← toNumE (dictGet pos "x" (.vInt 50))
      let pyq ← toNumE (dictGet pos "y" (.vInt 50))
      let ox := pytrunc (((max 0 (nwh.1 - (CANVAS_W : Int)) : Int) : ℚ) * pxq / 100)
      let oy := pytrunc (((max 0 (nwh.2 - (CANVAS_H : Int)) : Int) : ℚ) * pyq / 100)
      let img3 := cropImg img2 ox oy (ox + (CANVAS_W : Int)) (oy + (CANVAS_H : Int))
      pure (if img3.mode ≠ "RGB" then convertImg img3 "RGB" else img3)

/-- The alpha the code computes for the full overlay: `int(255 * overlay / 100)`. -/
def overlayAlpha (q : ℚ) : Int := pytrunc (255 * q / 100)

/-- The per-row gradient alpha:
`int(255 * overlay / 100 * ((y / CANVAS_H - 0.4) / 0.6))`. -/
def gradientAlpha (q : ℚ) (y : Int) : Int :=
  pytrunc (255 * q / 100 * (((y : ℚ) / (CANVAS_H : ℚ) - 2 / 5) / (3 / 5)))

/-- The gradient layer: transparent rows up to 40% of the height, one
horizontal line per row below it. -/
def gradientImage (q : ℚ) : PILImage :=
  ⟨"RGBA", CANVAS_W, CANVAS_H, fun _ y =>
    if 2 / 5 < (y : ℚ) / (CANVAS_H : ℚ) then ⟨0, 0, 0, gradientAlpha q y⟩ else ⟨0, 0, 0, 0⟩⟩

/-- The overlay step of `create_background`: applied only when
`overlay > 0`; no clamping of the strength anywhere. -/
def bgOverlay (bg : PyDict) (canvas : PILImage) : Except PyError PILImage :=
  match toNum (dictGet bg "overlay" (.vInt 0)) with
  | none => .error .typeError
  | some q =>
    if 0 < q then
      let c := convertImg canvas "RGBA"
      let composited :=
        if pyEqStr (dictGet bg "overlayType" .vNone) "gradient" then
          alphaComposite c (gradientImage q)
        else
          alphaComposite c (imgNew "RGBA" CANVAS_W CANVAS_H ⟨0, 0, 0, overlayAlpha q⟩)
      .ok (convertImg composited "RGB")
    else .ok canvas

/-- `SlideRenderer.create_background`. -/
def create_background (w : World) (bgv : Val) : Except PyError PILImage := do
  let bg ← asDictE bgv
  let rgb := bgColor (dictGet bg "color" (.vStr "#ffffff"))
  let canvas0 := imgNew "RGB" CANVAS_W CANVAS_H ⟨rgb.1, rgb.2.1, rgb.2.2, 255⟩
  let canvas ←
    if pyEqStr (dictGet bg "type" .vNone) "photo" && pyTruthy (dictGet bg "photo" .vNone) then
      match load_image w (dictGet bg "photo" .vNone) with
      | none => pure canvas0
      | some img => bgPhotoCanvas w bg img
    else pure canvas0
  bgOverlay bg canvas

/-! ### Text colors (`SlideRenderer.parse_color`) -/

/-- `color.lstrip("#")`; note `lstrip` strips every leading `#`. -/
def lstripHash (s : String) : List Char := s.data.dropWhile (· = '#')

/-- `SlideRenderer.parse_color`: black for falsy input; `AttributeError`
for a truthy non-string (the `lstrip` call sits outside the `try`); black
when any of the three hex slices fails to parse. -/
def parse_color (v : Val) : Except PyError (Int × Int × Int) :=
  if pyTruthy v = false then .ok (0, 0, 0)
  else
    match v with
    | .vStr s =>
      .ok (match hexNat? ((lstripHash s).take 2), hexNat? (((lstripHash s).drop 2).take 2),
             hexNat? (((lstripHash s).drop 4).take 2) with
           | some r, some g, some b => ((r : Int), (g : Int), (b : Int))
           | _, _, _ => (0, 0, 0))
    | _ => .error .attributeError

/-! ### Photo elements (`SlideRenderer.draw_photo_element`) -/

/-- Cover-fit dimensions of a photo element relative to its own box. -/
def elFitDims (iw ih : Nat) (bw bh : Int) : Int × Int :=
  let ir : ℚ := (iw : ℚ) / (ih : ℚ)
  let er : ℚ := (bw : ℚ) / (bh : ℚ)
  if er < ir then (pytrunc ((bh : ℚ) * ir), bh) else (bw, pytrunc ((bw : ℚ) / ir))

/-- `SlideRenderer.draw_photo_element`. -/
def draw_photo_element (w : World) (canvas : PILImage) (elv : Val) :
    Except PyError PILImage := do
  let el ← asDictE elv
  if pyTruthy (dictGet el "photo" .vNone) = false then pure canvas
  else
    match load_image w (dictGet el "photo" .vNone) with
    | none => pure canvas
    | some img => do
      let x ← pyIntE (dictGet el "x" (.vInt 0))
      let y ← pyIntE (dictGet el "y" (.vInt 0))
      let bw ← pyIntE (dictGet el "width" (.vInt 300))
      let bh ← pyIntE (dictGet el "height" (.vInt 300))
      let brv := dictGet el "borderRadius" (.vInt 0)
      if img.height = 0 then .error .zeroDivError
      else if bh = 0 then .error .zeroDivError
      else
        let ir : ℚ := (img.width : ℚ) / (img.height : ℚ)
        let er : ℚ := (bw : ℚ) / (bh : ℚ)
        if ¬ er < ir ∧ ir = 0 then .error .zeroDivError
        else
          let nwh := elFitDims img.width img.height bw bh
          if nwh.1 < 0 ∨ nwh.2 < 0 then .error .valueError
          else
            let img2 := resizeImg w img nwh.1.toNat nwh.2.toNat
            let left := Int.fdiv (nwh.1 - bw) 2
            let top := Int.fdiv (nwh.2 - bh) 2
            let img3 := cropImg img2 left top (left + bw) (top + bh)
            match toNum brv with
            | none => .error .typeError
            | some bq =>
              if 0 < bq then
                let img4 := convertImg img3 "RGBA"
                let radius := pytrunc (((min bw bh : Int) : ℚ) * bq / 100)
                let mask := roundedRectMask bw.toNat bh.toNat radius
                let img5 := putalpha img4 mask
                pure (pasteImg canvas img5 x y true)
              else if img3.mode = "RGBA" then pure (pasteImg canvas img3 x y true)
              else pure (pasteImg canvas img3 x y false)

/-! ### Highlight segmentation (`draw_text_element`, the `re.finditer` pass
over the pattern matching a star, one or more non-star characters, and a
closing star) -/

/-- A run of text tagged plain or highlighted. -/
structure Seg where
  text : String
  hl : Bool
deriving DecidableEq

/-- Left-to-right scan equivalent to `re.finditer` of the highlight
pattern: the first argument is `none` outside any candidate span and
`some g` after an opening star with `g` the non-star characters read so
far; `buf` accumulates pending plain text.  A star that cannot open a
match (immediately followed by a star or the end) becomes literal text,
and scanning resumes at the next character, exactly as the regex engine
advances its search position. -/
def scanSegs : Option (List Char) → List Char → List Char → List Seg
  | none, buf, [] => if buf.isEmpty then [] else [⟨String.mk buf, false⟩]
  | some g, buf, [] => [⟨String.mk (buf ++ '*' :: g), false⟩]
  | none, buf, c :: rest =>
    if c = '*' then scanSegs (some []) buf rest
    else scanSegs none (buf ++ [c]) rest
  | some g, buf, c :: rest =>
    if c = '*' then
      if g.isEmpty then scanSegs (some []) (buf ++ ['*']) rest
      else
        (if buf.isEmpty then [] else [⟨String.mk buf, false⟩])
          ++ ⟨String.mk g, true⟩ :: scanSegs none [] rest
    else scanSegs (some (g ++ [c])) buf rest

/-- The segment list `draw_text_element` builds, with the final
`if not segments` fallback to one plain segment. -/
def pySegments (content : String) : List Seg :=
  match scanSegs none [] content.data with
  | [] => [⟨content, false⟩]
  | s :: l => s :: l

/-- Non-star characters, the `[^*]` class of the highlight pattern. -/
def notStar (c : Char) : Bool := decide (c ≠ '*')

/-- Whether the highlight pattern matches anywhere: some star is followed
by one or more non-star characters and then another star. -/
def hasPair : List Char → Bool
  | [] => false
  | c :: rest =>
    (decide (c = '*') && !(rest.takeWhile notStar).isEmpty
      && !(rest.dropWhile notStar).isEmpty)
    || hasPair rest

/-! ### Word wrap (`draw_text_element`) -/

/-- `cs.split(sep)` on a char list: separator-keeping split, so empty
chunks are preserved exactly as Python's one-argument `str.split(sep)`
preserves them. -/
def splitChar (sep : Char) : List Char → List (List Char)
  | [] => [[]]
  | c :: rest =>
    let r := splitChar sep rest
    if c = sep then [] :: r
    else
      match r with
      | [] => [[c]]
      | h :: t => (c :: h) :: t

/-- `s.split(sep)` for a one-character separator. -/
def pySplit (s : String) (sep : Char) : List String := (splitChar sep s.data).map String.mk

/-- `" ".join(words)`. -/
def joinWords : List String → String
  | [] => ""
  | [w] => w
  | w :: ws => w ++ " " ++ joinWords ws

/-- The mutable wrap state: flushed lines, the current line's words, and
the current line's interleaved plain/highlight runs. -/
structure WrapSt where
  lines : List (List Seg)
  curWords : List String
  curSegs : List Seg

/-- The overflow test `max_width and bbox_width > max_width`: false when
`max_width` is unset or zero (falsy). -/
def wrapCond (mw : Option Int) (wd : Int) : Bool :=
  match mw with
  | none => false
  | some m => decide (m ≠ 0) && decide (m < wd)

/-- One iteration of the word loop: the joined candidate line is measured
and, on overflow with a non-empty current line, the current line is
flushed and the word starts a new one. -/
def wrapStep (mea : String → Int) (mw : Option Int) (hl : Bool) (st : WrapSt)
    (word : String) : WrapSt :=
  if word = "" then st
  else if wrapCond mw (mea (joinWords (st.curWords ++ [word]))) && !st.curWords.isEmpty then
    ⟨st.lines ++ [st.curSegs], [word], [⟨word, hl⟩]⟩
  else
    ⟨st.lines, st.curWords ++ [word],
      st.curSegs ++ (if st.curWords.isEmpty then [⟨word, hl⟩] else [⟨" ", false⟩, ⟨word, hl⟩])⟩

/-- The hard break taken between newline-delimited chunks. -/
def flushLine (st : WrapSt) : WrapSt := ⟨st.lines ++ [st.curSegs], [], []⟩

/-- The word loop over one newline-free chunk. -/
def wrapPart (mea : String → Int) (mw : Option Int) (hl : Bool) (st : WrapSt)
    (part : String) : WrapSt :=
  (pySplit part ' ').foldl (wrapStep mea mw hl) st

/-- One segment: split on newlines, flushing the current line before every
chunk except the first. -/
def wrapSeg (mea : String → Int) (mw : Option Int) (st : WrapSt) (sg : Seg) : WrapSt :=
  match pySplit sg.text '\n' with
  | [] => st
  | p :: ps => ps.foldl (fun s part => wrapPart mea mw sg.hl (flushLine s) part)
      (wrapPart mea mw sg.hl st p)

/-- The whole wrap pass, with the trailing `if current_segs` flush. -/
def wrapLines (mea : String → Int) (mw : Option Int) (segs : List Seg) : List (List Seg) :=
  let st := segs.foldl (wrapSeg mea mw) ⟨[], [], []⟩
  if st.curSegs.isEmpty then st.lines else st.lines ++ [st.curSegs]

/-- `"".join` of a line's run texts (the string measured per line). -/
def concatTexts : List Seg → String
  | [] => ""
  | sg :: l => sg.text ++ concatTexts l

/-- The words of an emitted line: every run except the single-space runs
re-inserted between words (words themselves never contain a space). -/
def wordsOfLine (l : List Seg) : List String :=
  (l.filter (fun s => s.text ≠ " ")).map (·.text)

/-- All words flushed so far plus the words of the current open line. -/
def outWords (st : WrapSt) : List String := st.lines.flatMap wordsOfLine ++ st.curWords

/-- The words the wrap loop consumes from one segment: split on newlines,
then on spaces, skipping empty chunks. -/
def segWords (sg : Seg) : List String :=
  (pySplit sg.text '\n').flatMap
    (fun part => (pySplit part ' ').filter (fun wd => decide (wd ≠ "")))

/-- The words the wrap loop consumes from a segment list, in order. -/
def allWords (segs : List Seg) : List String := segs.flatMap segWords

/-- What the claim asserts of one emitted line: a line holding two or more
words measures within the limit, and an overwide word sits alone. -/
def lineGood (mea : String → Int) (m : Int) (line : List Seg) : Prop :=
  (2 ≤ (wordsOfLine line).length → mea (concatTexts line) ≤ m)
  ∧ (∀ wd ∈ wordsOfLine line, m < mea wd → wordsOfLine line = [wd])

/-- The wrap loop invariant: flushed lines are good, the open line's run
list mirrors its word list (words interleaved with single-space runs, the
joined text equal to the joined words), the open line measures within the
limit once it holds two words, and an overwide word only ever sits alone
in the open line. -/
def wrapInv (mea : String → Int) (m : Int) (st : WrapSt) : Prop :=
  (∀ line ∈ st.lines, lineGood mea m line)
  ∧ st.curWords.isEmpty = st.curSegs.isEmpty
  ∧ wordsOfLine st.curSegs = st.curWords
  ∧ concatTexts st.curSegs = joinWords st.curWords
  ∧ (2 ≤ st.curWords.length → mea (joinWords st.curWords) ≤ m)
  ∧ (∀ wd ∈ st.curWords, m < mea wd → st.curWords = [wd])

/-! ### Text elements (`SlideRenderer.draw_text_element`) -/

/-- `username_override or settings.get("username", "@username")`. -/
def resolveUsername (override : Val) (settings : PyDict) : Val :=
  if pyTruthy override then override else dictGet settings "username" (.vStr "@username")

/-- Content materialization for the `username` and `slidenum` roles. -/
def contentFor (el : PyDict) (settingsv : Val) (override : Val)
    (slideNum totalSlides : Int) (c0 : Val) : Except PyError Val :=
  if pyEqStr (dictGet el "type" .vNone) "username" then do
    let st ← asDictE settingsv
    pure (resolveUsername override st)
  else if pyEqStr (dictGet el "type" .vNone) "slidenum" then
    .ok (.vStr (toString slideNum ++ "/" ++ toString totalSlides))
  else .ok c0

/-- Channel scaling for `opacity < 1`. -/
def scaleColor (c : Int × Int × Int) (op : ℚ) : Int × Int × Int :=
  (pytrunc ((c.1 : ℚ) * op), pytrunc ((c.2.1 : ℚ) * op), pytrunc ((c.2.2 : ℚ) * op))

/-- Painting one non-empty line: alignment start, then runs left to right. -/
def renderLine (w : World) (font : FontHandle) (x : Int) (align : Val)
    (bc hc : Int × Int × Int) (canvas : PILImage) (curY : Int) (line : List Seg) : PILImage :=
  let lw := w.textWidth font (concatTexts line)
  let startX :=
    if pyEqStr align "right" then x - lw
    else if pyEqStr align "center" then x - Int.fdiv lw 2
    else x
  (line.foldl (fun (p : PILImage × Int) sg =>
    (w.drawText p.1 p.2 curY sg.text font (if sg.hl then hc else bc),
     p.2 + w.textWidth font sg.text)) (canvas, startX)).1

/-- The line loop: empty lines only advance the vertical cursor. -/
def renderLines (w : World) (font : FontHandle) (x y : Int) (align : Val)
    (fontSize : Int) (lineHeight : ℚ) (bc hc : Int × Int × Int)
    (canvas : PILImage) (lines : List (List Seg)) : PILImage :=
  (lines.foldl (fun (st : PILImage × Int) line =>
    if line.isEmpty then (st.1, st.2 + pytrunc ((fontSize : ℚ) * lineHeight))
    else (renderLine w font x align bc hc st.1 st.2 line,
          st.2 + pytrunc ((fontSize : ℚ) * lineHeight))) (canvas, y)).1

/-- `SlideRenderer.draw_text_element`, threading the font cache. -/
def draw_text_element (w : World) (cache : FontCache) (canvas : PILImage)
    (elv settingsv : Val) (slideNum totalSlides : Int) (override : Val) :
    Except PyError (PILImage × FontCache) := do
  let el ← asDictE elv
  let c0 := dictGet el "content" (.vStr "")
  let x ← pyIntE (dictGet el "x" (.vInt 0))
  let y ← pyIntE (dictGet el "y" (.vInt 0))
  let fontFamily := dictGet el "fontFamily" (.vStr "Inter")
  let fontSize ← pyIntE (dictGet el "fontSize" (.vInt 48))
  let fontWeight := pyStrOfVal (dictGet el "fontWeight" (.vStr "400"))
  let colorV := dictGet el "color" (.vStr "#000000")
  let hlV := dictGet el "highlightColor" (.vStr "#c8ff00")
  let op0 ← pyFloatE (dictGet el "opacity" (.vInt 100))
  let opacity := op0 / 100
  let lineHeight ← pyFloatE (dictGet el "lineHeight" (.vFloat (6 / 5)))
  let maxWidth ←
    if pyTruthy (dictGet el "maxWidth" .vNone) then do
      let m ← pyIntE (dictGet el "maxWidth" .vNone)
      pure (some m)
    else pure (none : Option Int)
  let align := dictGet el "align" (.vStr "left")
  let c1 ← contentFor el settingsv override slideNum totalSlides c0
  let fc := get_font w cache fontFamily fontSize fontWeight
  let bc0 ← parse_color colorV
  let hc0 ← parse_color hlV
  let bc := if opacity < 1 then scaleColor bc0 opacity else bc0
  let hc := if opacity < 1 then scaleColor hc0 opacity else hc0
  let content ← asStrE c1
  let lines := wrapLines (w.textWidth fc.1) maxWidth (pySegments content)
  pure (renderLines w fc.1 x y align fontSize lineHeight bc hc canvas lines, fc.2)

/-! ### Whole slides (`SlideRenderer.render_slide`) -/

/-- Iterating `slide.get("elements", [])`: a list yields its items; an
empty string or empty dict yields nothing; a nonempty string or dict
yields scalar items whose first `.get` raises `AttributeError`; other
values are not iterable (`TypeError`). -/
def asIterDicts (v : Val) : Except PyError (List Val) :=
  match v with
  | .vList l => .ok l
  | .vStr s => if s = "" then .ok [] else .error .attributeError
  | .vDict d => if d.isEmpty then .ok [] else .error .attributeError
  | _ => .error .typeError

/-- `SlideRenderer.render_slide`. -/
def render_slide (w : World) (cache : FontCache) (slidev settingsv : Val)
    (slideNum totalSlides : Int) (override : Val) : Except PyError PILImage := do
  let sd ← asDictE slidev
  let canvas ← create_background w (dictGet sd "background" (.vDict []))
  let els ← asIterDicts (dictGet sd "elements" (.vList []))
  let res ← els.foldlM (fun (st : PILImage × FontCache) elv => do
    let el ← asDictE elv
    if pyEqStr (dictGet el "type" .vNone) "photo" then do
      let c ← draw_photo_element w st.1 elv
      pure (c, st.2)
    else draw_text_element w st.2 st.1 elv settingsv slideNum totalSlides override)
    (canvas, cache)
  pure res.1

/-! ### Well-formedness: the input class on which the engine provably does
not raise.  The class is narrower than the exact no-raise domain (for
example, numeric strings in numeric fields also render), which only makes
the totality theorem weaker, never unsound. -/

def isNumB (v : Val) : Bool := (toNum v).isSome

def isStrB : Val → Bool
  | .vStr _ => true
  | _ => false

/-- Values `parse_color` accepts without raising: strings, or anything
falsy. -/
def strOrFalsy (v : Val) : Bool := isStrB v || !pyTruthy v

def wfTextEl (d : PyDict) : Bool :=
  isNumB (dictGet d "x" (.vInt 0)) && isNumB (dictGet d "y" (.vInt 0))
  && isNumB (dictGet d "fontSize" (.vInt 48))
  && isNumB (dictGet d "opacity" (.vInt 100))
  && isNumB (dictGet d "lineHeight" (.vFloat (6 / 5)))
  && (!pyTruthy (dictGet d "maxWidth" .vNone) || isNumB (dictGet d "maxWidth" .vNone))
  && strOrFalsy (dictGet d "color" (.vStr "#000000"))
  && strOrFalsy (dictGet d "highlightColor" (.vStr "#c8ff00"))
  && isStrB (dictGet d "content" (.vStr ""))

/-- Numeric with positive truncation (box dimensions). -/
def posIntB (v : Val) : Bool :=
  match toNum v with
  | some q => decide (0 < pytrunc q)
  | none => false

def wfPhotoEl (d : PyDict) : Bool :=
  isNumB (dictGet d "x" (.vInt 0)) && isNumB (dictGet d "y" (.vInt 0))
  && posIntB (dictGet d "width" (.vInt 300)) && posIntB (dictGet d "height" (.vInt 300))
  && isNumB (dictGet d "borderRadius" (.vInt 0))

def wfBg (v : Val) : Bool :=
  match v with
  | .vDict d =>
    isNumB (dictGet d "overlay" (.vInt 0))
    && isNumB (dictGet d "photoZoom" (.vInt 1))
    && (match dictGet d "photoPosition" (.vDict [("x", .vInt 50), ("y", .vInt 50)]) with
        | .vDict p => isNumB (dictGet p "x" (.vInt 50)) && isNumB (dictGet p "y" (.vInt 50))
        | _ => false)
  | _ => false

def wfEl (v : Val) : Bool :=
  match v with
  | .vDict d => if pyEqStr (dictGet d "type" .vNone) "photo" then wfPhotoEl d else wfTextEl d
  | _ => false

def wfSlide (v : Val) : Bool :=
  match v with
  | .vDict d =>
    wfBg (dictGet d "background" (.vDict []))
    && (match dictGet d "elements" (.vList []) with
        | .vList l => l.all wfEl
        | _ => false)
  | _ => false

def wfSettings (v : Val) : Bool :=
  match v with
  | .vDict d => isStrB (dictGet d "username" (.vStr "@username"))
  | _ => false

def wfOverride : Val → Bool
  | .vNone => true
  | .vStr _ => true
  | _ => false

/-- Decoded images have positive dimensions (PIL cannot decode an image
with a zero dimension). -/
def worldImagesPos (w : World) : Prop :=
  ∀ s img, w.decodeBytes s = some img → 0 < img.width ∧ 0 < img.height

/-! ## Basic lemmas -/

@[simp] theorem pyBind_ok {α β : Type} (a : α) (f : α → Except PyError β) :
    (Except.ok a >>= f : Except PyError β) = f a := rfl

@[simp] theorem pyBind_err {α β : Type} (e : PyError) (f : α → Except PyError β) :
    (Except.error e >>= f : Except PyError β) = .error e := rfl

@[simp] theorem pyPure {α : Type} (a : α) : (pure a : Except PyError α) = .ok a := rfl

theorem pytrunc_eq_floor {q : ℚ} (h : 0 ≤ q) : pytrunc q = ⌊q⌋ := if_pos h

theorem pytrunc_intCast (n : Int) : pytrunc (n : ℚ) = n := by
  unfold pytrunc
  split
  · exact Int.floor_intCast n
  · exact Int.ceil_intCast n

theorem pytrunc_nonneg {q : ℚ} (h : 0 ≤ q) : 0 ≤ pytrunc q := by
  rw [pytrunc_eq_floor h]
  exact Int.floor_nonneg.mpr h

theorem le_pytrunc {n : Int} {q : ℚ} (hn : 0 ≤ n) (h : (n : ℚ) ≤ q) : n ≤ pytrunc q := by
  rw [pytrunc_eq_floor (le_trans (by exact_mod_cast hn) h)]
  exact Int.le_floor.mpr h

theorem pytrunc_mono {a b : ℚ} (h : a ≤ b) : pytrunc a ≤ pytrunc b := by
  unfold pytrunc
  by_cases ha : 0 ≤ a <;> by_cases hb : 0 ≤ b
  · rw [if_pos ha, if_pos hb]
    exact Int.floor_le_floor h
  · exact absurd (ha.trans h) hb
  · rw [if_neg ha, if_pos hb]
    exact le_trans (Int.ceil_le.mpr (by exact_mod_cast le_of_not_le ha))
      (Int.floor_nonneg.mpr hb)
  · rw [if_neg ha, if_neg hb]
    exact Int.ceil_le_ceil h

theorem bgFitDims_ge {iw ih : Nat} {z : ℚ} (hiw : 0 < iw) (hih : 0 < ih) (hz : 1 ≤ z) :
    (1080 : Int) ≤ (bgFitDims iw ih z).1 ∧ (1350 : Int) ≤ (bgFitDims iw ih z).2 := by
  have hr : (0 : ℚ) < (iw : ℚ) / (ih : ℚ) :=
    div_pos (by exact_mod_cast hiw) (by exact_mod_cast hih)
  unfold bgFitDims
  by_cases hlt : (CANVAS_W : ℚ) / (CANVAS_H : ℚ) < (iw : ℚ) / (ih : ℚ)
  · rw [if_pos hlt]
    have hbase : (1080 : Int) ≤ pytrunc ((CANVAS_H : ℚ) * ((iw : ℚ) / (ih : ℚ))) := by
      apply le_pytrunc (by norm_num)
      have hmul := mul_le_mul_of_nonneg_left hlt.le (by norm_num : (0 : ℚ) ≤ (CANVAS_H : ℚ))
      calc ((1080 : Int) : ℚ) = (CANVAS_H : ℚ) * ((CANVAS_W : ℚ) / (CANVAS_H : ℚ)) := by
            norm_num [CANVAS_W, CANVAS_H]
        _ ≤ (CANVAS_H : ℚ) * ((iw : ℚ) / (ih : ℚ)) := hmul
    constructor
    · refine le_trans hbase (le_pytrunc (le_trans (by norm_num) hbase) ?_)
      exact le_mul_of_one_le_right (by exact_mod_cast le_trans (by norm_num) hbase) hz
    · apply le_pytrunc (by norm_num)
      calc ((1350 : Int) : ℚ) = (CANVAS_H : ℚ) := by norm_num [CANVAS_H]
        _ ≤ (CANVAS_H : ℚ) * z := le_mul_of_one_le_right (by norm_num [CANVAS_H]) hz
  · rw [if_neg hlt]
    have hle : (iw : ℚ) / (ih : ℚ) ≤ (CANVAS_W : ℚ) / (CANVAS_H : ℚ) := le_of_not_lt hlt
    have hbase : (1350 : Int) ≤ pytrunc ((CANVAS_W : ℚ) / ((iw : ℚ) / (ih : ℚ))) := by
      apply le_pytrunc (by norm_num)
      rw [le_div_iff₀ hr]
      have hmul := mul_le_mul_of_nonneg_left hle (by norm_num : (0 : ℚ) ≤ 1350)
      calc ((1350 : Int) : ℚ) * ((iw : ℚ) / (ih : ℚ))
          = 1350 * ((iw : ℚ) / (ih : ℚ)) := by norm_num
        _ ≤ 1350 * ((CANVAS_W : ℚ) / (CANVAS_H : ℚ)) := hmul
        _ = (CANVAS_W : ℚ) := by norm_num [CANVAS_W, CANVAS_H]
    constructor
    · apply le_pytrunc (by norm_num)
      calc ((1080 : Int) : ℚ) = (CANVAS_W : ℚ) := by norm_num [CANVAS_W]
        _ ≤ (CANVAS_W : ℚ) * z := le_mul_of_one_le_right (by norm_num [CANVAS_W]) hz
    · refine le_trans hbase (le_pytrunc (le_trans (by norm_num) hbase) ?_)
      exact le_mul_of_one_le_right (by exact_mod_cast le_trans (by norm_num) hbase) hz

theorem elFitDims_ge {iw ih : Nat} {bw bh : Int} (hiw : 0 < iw) (hih : 0 < ih)
    (hbw : 0 < bw) (hbh : 0 < bh) :
    bw ≤ (elFitDims iw ih bw bh).1 ∧ bh ≤ (elFitDims iw ih bw bh).2 := by
  have hir : (0 : ℚ) < (iw : ℚ) / (ih : ℚ) :=
    div_pos (by exact_mod_cast hiw) (by exact_mod_cast hih)
  have hbwq : (0 : ℚ) < (bw : ℚ) := by exact_mod_cast hbw
  have hbhq : (0 : ℚ) < (bh : ℚ) := by exact_mod_cast hbh
  unfold elFitDims
  by_cases hlt : (bw : ℚ) / (bh : ℚ) < (iw : ℚ) / (ih : ℚ)
  · rw [if_pos hlt]
    refine ⟨?_, le_refl bh⟩
    apply le_pytrunc hbw.le
    have hmul := mul_le_mul_of_nonneg_left hlt.le hbhq.le
    calc ((bw : Int) : ℚ) = (bh : ℚ) * ((bw : ℚ) / (bh : ℚ)) := by field_simp
      _ ≤ (bh : ℚ) * ((iw : ℚ) / (ih : ℚ)) := hmul
  · rw [if_neg hlt]
    refine ⟨le_refl bw, ?_⟩
    apply le_pytrunc hbh.le
    have hle : (iw : ℚ) / (ih : ℚ) ≤ (bw : ℚ) / (bh : ℚ) := le_of_not_lt hlt
    have h2 : (bw : ℚ) / ((bw : ℚ) / (bh : ℚ)) ≤ (bw : ℚ) / ((iw : ℚ) / (ih : ℚ)) :=
      div_le_div_of_nonneg_left hbwq.le hir hle
    calc ((bh : Int) : ℚ) = (bw : ℚ) / ((bw : ℚ) / (bh : ℚ)) := by field_simp
      _ ≤ (bw : ℚ) / ((iw : ℚ) / (ih : ℚ)) := h2

/-! ### Totality lemmas: the engine does not raise on well-typed input -/

theorem toNum_some {v : Val} (h : isNumB v = true) : ∃ q, toNum v = some q := by
  unfold isNumB at h
  exact Option.isSome_iff_exists.mp h

theorem toNumE_ok {v : Val} (h : isNumB v = true) : ∃ q, toNumE v = .ok q := by
  obtain ⟨q, hq⟩ := toNum_some h
  exact ⟨q, by simp [toNumE, hq]⟩

theorem pyIntE_ok {v : Val} (h : isNumB v = true) : ∃ n, pyIntE v = .ok n := by
  cases v with
  | vInt n => exact ⟨n, rfl⟩
  | vFloat q => exact ⟨pytrunc q, rfl⟩
  | vBool b => exact ⟨if b then 1 else 0, rfl⟩
  | vNone => simp [isNumB, toNum] at h
  | vStr s => simp [isNumB, toNum] at h
  | vList l => simp [isNumB, toNum] at h
  | vDict d => simp [isNumB, toNum] at h

theorem pyFloatE_ok {v : Val} (h : isNumB v = true) : ∃ q, pyFloatE v = .ok q := by
  cases v with
  | vInt n => exact ⟨(n : ℚ), rfl⟩
  | vFloat q => exact ⟨q, rfl⟩
  | vBool b => exact ⟨if b then 1 else 0, rfl⟩
  | vNone => simp [isNumB, toNum] at h
  | vStr s => simp [isNumB, toNum] at h
  | vList l => simp [isNumB, toNum] at h
  | vDict d => simp [isNumB, toNum] at h

theorem pyIntE_pos {v : Val} (h : posIntB v = true) : ∃ n, pyIntE v = .ok n ∧ 0 < n := by
  cases v with
  | vInt n =>
    refine ⟨n, rfl, ?_⟩
    have h2 : 0 < pytrunc ((n : Int) : ℚ) := by simpa [posIntB, toNum] using h
    rwa [pytrunc_intCast] at h2
  | vFloat q =>
    refine ⟨pytrunc q, rfl, ?_⟩
    simpa [posIntB, toNum] using h
  | vBool b =>
    cases b with
    | false => norm_num [posIntB, toNum, pytrunc] at h
    | true => exact ⟨1, rfl, by norm_num⟩
  | vNone => simp [posIntB, toNum] at h
  | vStr s => simp [posIntB, toNum] at h
  | vList l => simp [posIntB, toNum] at h
  | vDict d => simp [posIntB, toNum] at h

theorem isStrB_exists {v : Val} (h : isStrB v = true) : ∃ s, v = .vStr s := by
  cases v with
  | vStr s => exact ⟨s, rfl⟩
  | vNone => simp [isStrB] at h
  | vBool b => simp [isStrB] at h
  | vInt n => simp [isStrB] at h
  | vFloat q => simp [isStrB] at h
  | vList l => simp [isStrB] at h
  | vDict d => simp [isStrB] at h

theorem parse_color_ok {v : Val} (h : strOrFalsy v = true) : ∃ c, parse_color v = .ok c := by
  unfold parse_color
  by_cases ht : pyTruthy v = false
  · rw [if_pos ht]
    exact ⟨(0, 0, 0), rfl⟩
  · rw [if_neg ht]
    have hs : isStrB v = true := by
      unfold strOrFalsy at h
      rw [Bool.or_eq_true] at h
      rcases h with h1 | h1
      · exact h1
      · exact absurd (by simpa using h1) ht
    obtain ⟨s, rfl⟩ := isStrB_exists hs
    exact ⟨_, rfl⟩

theorem load_image_pos {w : World} (hw : worldImagesPos w) {v : Val} {img : PILImage}
    (h : load_image w v = some img) : 0 < img.width ∧ 0 < img.height := by
  unfold load_image at h
  repeat' split at h
  all_goals first
    | exact hw _ _ h
    | simp at h

theorem bgOverlay_ok {bg : PyDict} (h : isNumB (dictGet bg "overlay" (.vInt 0)) = true)
    (canvas : PILImage) : ∃ c, bgOverlay bg canvas = .ok c := by
  unfold bgOverlay
  obtain ⟨q, hq⟩ := toNum_some h
  simp only [hq]
  by_cases h0 : 0 < q
  · rw [if_pos h0]
    exact ⟨_, rfl⟩
  · rw [if_neg h0]
    exact ⟨canvas, rfl⟩

theorem posMatch_exists {v : Val}
    (h : (match v with
          | Val.vDict p => isNumB (dictGet p "x" (.vInt 50)) && isNumB (dictGet p "y" (.vInt 50))
          | _ => false) = true) :
    ∃ p, v = .vDict p ∧ isNumB (dictGet p "x" (.vInt 50)) = true
      ∧ isNumB (dictGet p "y" (.vInt 50)) = true := by
  cases v with
  | vDict p =>
    have h2 : (isNumB (dictGet p "x" (.vInt 50)) && isNumB (dictGet p "y" (.vInt 50)))
        = true := h
    rw [Bool.and_eq_true] at h2
    exact ⟨p, rfl, h2.1, h2.2⟩
  | vNone => exact absurd h (by simp)
  | vBool b => exact absurd h (by simp)
  | vInt n => exact absurd h (by simp)
  | vFloat q => exact absurd h (by simp)
  | vStr s => exact absurd h (by simp)
  | vList l => exact absurd h (by simp)

theorem bgPhotoCanvas_ok {w : World} {bg : PyDict} {img : PILImage}
    (hpos : (match dictGet bg "photoPosition" (.vDict [("x", .vInt 50), ("y", .vInt 50)]) with
             | Val.vDict p => isNumB (dictGet p "x" (.vInt 50)) && isNumB (dictGet p "y" (.vInt 50))
             | _ => false) = true)
    (hz : isNumB (dictGet bg "photoZoom" (.vInt 1)) = true)
    (hiw : 0 < img.width) (hih : 0 < img.height) :
    ∃ c, bgPhotoCanvas w bg img = .ok c := by
  obtain ⟨qz, hqz⟩ := toNum_some hz
  obtain ⟨p, hpd, hpx, hpy⟩ := posMatch_exists hpos
  obtain ⟨qx, hqx⟩ := toNum_some hpx
  obtain ⟨qy, hqy⟩ := toNum_some hpy
  have hrpos : (0 : ℚ) < (img.width : ℚ) / (img.height : ℚ) :=
    div_pos (by exact_mod_cast hiw) (by exact_mod_cast hih)
  unfold bgPhotoCanvas bgZoom toNumE
  rw [hpd]
  simp only [asDictE, pyBind_ok, hqz, hqx, hqy, pyPure]
  rw [if_neg (by omega : ¬ img.height = 0)]
  rw [if_neg (by intro hand; exact absurd hand.2 (ne_of_gt hrpos))]
  exact ⟨_, rfl⟩

theorem create_background_ok {w : World} (hw : worldImagesPos w) {v : Val}
    (hbg : wfBg v = true) : ∃ c, create_background w v = .ok c := by
  cases v with
  | vDict bg =>
    have h2 := hbg
    simp only [wfBg] at h2
    rw [Bool.and_eq_true, Bool.and_eq_true] at h2
    obtain ⟨⟨hov, hz⟩, hpos⟩ := h2
    unfold create_background
    simp only [asDictE, pyBind_ok]
    by_cases hph :
        (pyEqStr (dictGet bg "type" .vNone) "photo" && pyTruthy (dictGet bg "photo" .vNone)) = true
    · rw [if_pos hph]
      cases hli : load_image w (dictGet bg "photo" .vNone) with
      | none =>
        simp only [pyBind_ok, pyPure]
        exact bgOverlay_ok hov _
      | some img =>
        obtain ⟨hiw, hih⟩ := load_image_pos hw hli
        obtain ⟨c1, hc1⟩ := bgPhotoCanvas_ok (w := w) hpos hz hiw hih
        show ∃ c, (bgPhotoCanvas w bg img >>= fun y => bgOverlay bg y) = .ok c
        rw [hc1]
        simp only [pyBind_ok]
        exact bgOverlay_ok hov c1
    · rw [if_neg hph]
      simp only [pyBind_ok, pyPure]
      exact bgOverlay_ok hov _
  | vNone => simp [wfBg] at hbg
  | vBool b => simp [wfBg] at hbg
  | vInt n => simp [wfBg] at hbg
  | vFloat q => simp [wfBg] at hbg
  | vStr s => simp [wfBg] at hbg
  | vList l => simp [wfBg] at hbg

theorem draw_photo_ok {w : World} (hw : worldImagesPos w) {d : PyDict}
    (hwf : wfPhotoEl d = true) (canvas : PILImage) :
    ∃ c, draw_photo_element w canvas (.vDict d) = .ok c := by
  have h2 := hwf
  unfold wfPhotoEl at h2
  rw [Bool.and_eq_true, Bool.and_eq_true, Bool.and_eq_true, Bool.and_eq_true] at h2
  obtain ⟨⟨⟨⟨hx, hy⟩, hwd⟩, hht⟩, hbr⟩ := h2
  unfold draw_photo_element
  simp only [asDictE, pyBind_ok]
  by_cases hph : pyTruthy (dictGet d "photo" .vNone) = false
  · rw [if_pos hph]
    exact ⟨canvas, rfl⟩
  · rw [if_neg hph]
    cases hli : load_image w (dictGet d "photo" .vNone) with
    | none => exact ⟨canvas, rfl⟩
    | some img =>
      obtain ⟨hiw, hih⟩ := load_image_pos hw hli
      obtain ⟨nx, hnx⟩ := pyIntE_ok hx
      obtain ⟨ny, hny⟩ := pyIntE_ok hy
      obtain ⟨bw, hbw, hbwpos⟩ := pyIntE_pos hwd
      obtain ⟨bh, hbh, hbhpos⟩ := pyIntE_pos hht
      obtain ⟨bq, hbq⟩ := toNum_some hbr
      have hfit := elFitDims_ge hiw hih hbwpos hbhpos
      have hirpos : (0 : ℚ) < (img.width : ℚ) / (img.height : ℚ) :=
        div_pos (by exact_mod_cast hiw) (by exact_mod_cast hih)
      simp only [hnx, hny, hbw, hbh, pyBind_ok]
      rw [if_neg (by omega : ¬ img.height = 0)]
      rw [if_neg (by omega : ¬ bh = 0)]
      rw [if_neg (by intro hand; exact absurd hand.2 (ne_of_gt hirpos))]
      rw [if_neg (by
        push_neg
        obtain ⟨hf1, hf2⟩ := hfit
        constructor <;> omega)]
      simp only [hbq]
      by_cases hbq0 : 0 < bq
      · rw [if_pos hbq0]
        exact ⟨_, rfl⟩
      · rw [if_neg hbq0]
        by_cases hmode :
            (cropImg (resizeImg w img (elFitDims img.width img.height bw bh).1.toNat
                (elFitDims img.width img.height bw bh).2.toNat)
              (Int.fdiv ((elFitDims img.width img.height bw bh).1 - bw) 2)
              (Int.fdiv ((elFitDims img.width img.height bw bh).2 - bh) 2)
              (Int.fdiv ((elFitDims img.width img.height bw bh).1 - bw) 2 + bw)
              (Int.fdiv ((elFitDims img.width img.height bw bh).2 - bh) 2 + bh)).mode = "RGBA"
        · rw [if_pos hmode]
          exact ⟨_, rfl⟩
        · rw [if_neg hmode]
          exact ⟨_, rfl⟩

theorem contentFor_ok (el : PyDict) {st : PyDict} {override : Val}
    (hset : isStrB (dictGet st "username" (.vStr "@username")) = true)
    (hov : wfOverride override = true) {c0 : Val} (hc0 : isStrB c0 = true) (n t : Int) :
    ∃ s : String, contentFor el (.vDict st) override n t c0 = .ok (.vStr s) := by
  unfold contentFor
  by_cases h1 : pyEqStr (dictGet el "type" .vNone) "username" = true
  · rw [if_pos h1]
    simp only [asDictE, pyBind_ok, pyPure]
    unfold resolveUsername
    by_cases h2 : pyTruthy override = true
    · rw [if_pos h2]
      cases override with
      | vStr s => exact ⟨s, rfl⟩
      | vNone => simp [pyTruthy] at h2
      | vBool b => simp [wfOverride] at hov
      | vInt nn => simp [wfOverride] at hov
      | vFloat q => simp [wfOverride] at hov
      | vList l => simp [wfOverride] at hov
      | vDict dd => simp [wfOverride] at hov
    · rw [if_neg h2]
      obtain ⟨s, hs⟩ := isStrB_exists hset
      exact ⟨s, by rw [hs]⟩
  · rw [if_neg h1]
    by_cases h3 : pyEqStr (dictGet el "type" .vNone) "slidenum" = true
    · rw [if_pos h3]
      exact ⟨_, rfl⟩
    · rw [if_neg h3]
      obtain ⟨s, hs⟩ := isStrB_exists hc0
      exact ⟨s, by rw [hs]⟩

theorem draw_text_ok {w : World} {d : PyDict} (hwf : wfTextEl d = true)
    {settings : PyDict} (hset : wfSettings (.vDict settings) = true)
    {override : Val} (hov : wfOverride override = true)
    (cache : FontCache) (canvas : PILImage) (n t : Int) :
    ∃ out, draw_text_element w cache canvas (.vDict d) (.vDict settings) n t override
        = .ok out := by
  have h2 := hwf
  unfold wfTextEl at h2
  rw [Bool.and_eq_true, Bool.and_eq_true, Bool.and_eq_true, Bool.and_eq_true,
    Bool.and_eq_true, Bool.and_eq_true, Bool.and_eq_true, Bool.and_eq_true] at h2
  obtain ⟨⟨⟨⟨⟨⟨⟨⟨hx, hy⟩, hfs⟩, hop⟩, hlh⟩, hmw⟩, hcol⟩, hhcol⟩, hcont⟩ := h2
  have hsetu : isStrB (dictGet settings "username" (.vStr "@username")) = true := by
    simpa [wfSettings] using hset
  obtain ⟨nx, hnx⟩ := pyIntE_ok hx
  obtain ⟨ny, hny⟩ := pyIntE_ok hy
  obtain ⟨nfs, hnfs⟩ := pyIntE_ok hfs
  obtain ⟨qop, hqop⟩ := pyFloatE_ok hop
  obtain ⟨qlh, hqlh⟩ := pyFloatE_ok hlh
  obtain ⟨bc0, hbc0⟩ := parse_color_ok hcol
  obtain ⟨hlc0, hhc0⟩ := parse_color_ok hhcol
  obtain ⟨cs, hcf⟩ := contentFor_ok d hsetu hov hcont n t
  unfold draw_text_element
  simp only [asDictE, pyBind_ok, hnx, hny, hnfs, hqop, hqlh, hbc0, hhc0, hcf, pyPure, asStrE]
  by_cases hmwt : pyTruthy (dictGet d "maxWidth" .vNone) = true
  · have hmwn : isNumB (dictGet d "maxWidth" .vNone) = true := by
      rw [hmwt] at hmw
      simpa using hmw
    obtain ⟨nm, hnm⟩ := pyIntE_ok hmwn
    simp only [hmwt, hnm, pyBind_ok, pyPure, if_true]
    exact ⟨_, rfl⟩
  · have hmwf : pyTruthy (dictGet d "maxWidth" .vNone) = false := eq_false_of_ne_true hmwt
    simp only [hmwf, pyBind_ok, pyPure, if_false, Bool.false_eq_true]
    exact ⟨_, rfl⟩

theorem elemsMatch_exists {v : Val}
    (h : (match v with | Val.vList l => l.all wfEl | _ => false) = true) :
    ∃ l, v = .vList l ∧ ∀ e ∈ l, wfEl e = true := by
  cases v with
  | vList l =>
    refine ⟨l, rfl, ?_⟩
    have h2 : l.all wfEl = true := h
    simpa [List.all_eq_true] using h2
  | vNone => exact absurd h (by simp)
  | vBool b => exact absurd h (by simp)
  | vInt n => exact absurd h (by simp)
  | vFloat q => exact absurd h (by simp)
  | vStr s => exact absurd h (by simp)
  | vDict d => exact absurd h (by simp)

theorem render_elems_ok {w : World} (hw : worldImagesPos w)
    {settings : PyDict} (hset : wfSettings (.vDict settings) = true)
    {override : Val} (hov : wfOverride override = true) (n t : Int) :
    ∀ (l : List Val), (∀ e ∈ l, wfEl e = true) →
    ∀ (canvas : PILImage) (cache : FontCache),
    ∃ out, (l.foldlM (fun (st : PILImage × FontCache) elv => do
        let el ← asDictE elv
        if pyEqStr (dictGet el "type" .vNone) "photo" then do
          let c ← draw_photo_element w st.1 elv
          pure (c, st.2)
        else draw_text_element w st.2 st.1 elv (.vDict settings) n t override)
      (canvas, cache)) = .ok out := by
  intro l
  induction l with
  | nil =>
    intro _ canvas cache
    exact ⟨(canvas, cache), rfl⟩
  | cons e lrest ih =>
    intro hall canvas cache
    have he := hall e (List.mem_cons_self e lrest)
    have hrest : ∀ x ∈ lrest, wfEl x = true := fun x hx => hall x (List.mem_cons_of_mem e hx)
    cases e with
    | vDict d =>
      rw [List.foldlM_cons]
      by_cases hty : pyEqStr (dictGet d "type" .vNone) "photo" = true
      · have hwfp : wfPhotoEl d = true := by
          have h3 : (if pyEqStr (dictGet d "type" .vNone) "photo" then wfPhotoEl d
              else wfTextEl d) = true := he
          rwa [if_pos hty] at h3
        obtain ⟨c1, hc1⟩ := draw_photo_ok hw hwfp canvas
        obtain ⟨out, hout⟩ := ih hrest c1 cache
        refine ⟨out, ?_⟩
        simp only [asDictE, pyBind_ok, hty, if_true, hc1, pyPure]
        exact hout
      · have hwft : wfTextEl d = true := by
          have h3 : (if pyEqStr (dictGet d "type" .vNone) "photo" then wfPhotoEl d
              else wfTextEl d) = true := he
          rwa [if_neg hty] at h3
        obtain ⟨out1, hout1⟩ := draw_text_ok (w := w) hwft hset hov cache canvas n t
        obtain ⟨out, hout⟩ := ih hrest out1.1 out1.2
        refine ⟨out, ?_⟩
        have htyf : pyEqStr (dictGet d "type" .vNone) "photo" = false := eq_false_of_ne_true hty
        simp only [asDictE, pyBind_ok, htyf, if_false, Bool.false_eq_true, hout1, pyPure]
        exact hout
    | vNone => exact absurd he (by simp [wfEl])
    | vBool b => exact absurd he (by simp [wfEl])
    | vInt nn => exact absurd he (by simp [wfEl])
    | vFloat q => exact absurd he (by simp [wfEl])
    | vStr s => exact absurd he (by simp [wfEl])
    | vList ll => exact absurd he (by simp [wfEl])

theorem render_slide_total {w : World} (hw : worldImagesPos w) {slidev settingsv override : Val}
    (h1 : wfSlide slidev = true) (h2 : wfSettings settingsv = true)
    (h3 : wfOverride override = true) (cache : FontCache) (n t : Int) :
    ∃ img, render_slide w cache slidev settingsv n t override = .ok img := by
  cases slidev with
  | vDict sd =>
    have hs := h1
    simp only [wfSlide] at hs
    rw [Bool.and_eq_true] at hs
    obtain ⟨hbg, hels⟩ := hs
    obtain ⟨c0, hc0⟩ := create_background_ok hw hbg
    cases settingsv with
    | vDict settings =>
      obtain ⟨l, hlv, hall⟩ := elemsMatch_exists hels
      obtain ⟨out, hout⟩ := render_elems_ok hw h2 h3 n t l hall c0 cache
      unfold render_slide
      simp only [asDictE, pyBind_ok, hc0]
      rw [hlv]
      simp only [asIterDicts, pyBind_ok]
      simp only [asDictE] at hout
      rw [hout]
      exact ⟨out.1, rfl⟩
    | vNone => simp [wfSettings] at h2
    | vBool b => simp [wfSettings] at h2
    | vInt nn => simp [wfSettings] at h2
    | vFloat q => simp [wfSettings] at h2
    | vStr s => simp [wfSettings] at h2
    | vList ll => simp [wfSettings] at h2
  | vNone => simp [wfSlide] at h1
  | vBool b => simp [wfSlide] at h1
  | vInt nn => simp [wfSlide] at h1
  | vFloat q => simp [wfSlide] at h1
  | vStr s => simp [wfSlide] at h1
  | vList ll => simp [wfSlide] at h1

/-! ### Segmentation lemmas -/

theorem strMk_data (s : String) : String.mk s.data = s := rfl

theorem scanSegs_none_noStar :
    ∀ cs buf : List Char, (∀ c ∈ cs, c ≠ '*') →
    scanSegs none buf cs =
      if (buf ++ cs).isEmpty then [] else [⟨String.mk (buf ++ cs), false⟩] := by
  intro cs
  induction cs with
  | nil => intro buf _; simp [scanSegs]
  | cons c rest ih =>
    intro buf h
    have hc : c ≠ '*' := h c (List.mem_cons_self c rest)
    simp only [scanSegs]
    rw [if_neg hc, ih (buf ++ [c]) (fun d hd => h d (List.mem_cons_of_mem c hd))]
    simp

theorem scanSegs_some_eval :
    ∀ cs g buf : List Char, (∀ c ∈ g, c ≠ '*') →
    scanSegs (some g) buf cs =
      (match cs.dropWhile notStar with
       | [] => [⟨String.mk (buf ++ '*' :: (g ++ cs)), false⟩]
       | _ :: tail =>
         if (g ++ cs.takeWhile notStar).isEmpty then
           scanSegs (some []) (buf ++ ['*']) tail
         else
           (if buf.isEmpty then [] else [⟨String.mk buf, false⟩])
             ++ ⟨String.mk (g ++ cs.takeWhile notStar), true⟩ :: scanSegs none [] tail) := by
  intro cs
  induction cs with
  | nil =>
    intro g buf _
    simp [scanSegs, List.dropWhile_nil]
  | cons c rest ih =>
    intro g buf hg
    by_cases hc : c = '*'
    · subst hc
      have hdw : List.dropWhile notStar ('*' :: rest) = '*' :: rest := by
        simp [List.dropWhile_cons, notStar]
      have htw : List.takeWhile notStar ('*' :: rest) = [] := by
        simp [List.takeWhile_cons, notStar]
      simp only [scanSegs, if_pos rfl, hdw, htw, List.append_nil]
      simp
    · have hdw : List.dropWhile notStar (c :: rest) = List.dropWhile notStar rest := by
        simp [List.dropWhile_cons, notStar, hc]
      have htw : List.takeWhile notStar (c :: rest) = c :: List.takeWhile notStar rest := by
        simp [List.takeWhile_cons, notStar, hc]
      have hg' : ∀ d ∈ g ++ [c], d ≠ '*' := by
        intro d hd
        rcases List.mem_append.mp hd with hd | hd
        · exact hg d hd
        · rw [List.mem_singleton.mp hd]; exact hc
      simp only [scanSegs]
      rw [if_neg hc, ih (g ++ [c]) buf hg', hdw, htw]
      simp

theorem dropWhile_head_false {p : Char → Bool} :
    ∀ {l : List Char} {d : Char} {tail : List Char}, l.dropWhile p = d :: tail → p d = false := by
  intro l
  induction l with
  | nil => intro d tail h; simp [List.dropWhile] at h
  | cons c cs ih =>
    intro d tail h
    by_cases hc : p c = true
    · rw [List.dropWhile_cons, if_pos hc] at h
      exact ih h
    · rw [List.dropWhile_cons, if_neg hc] at h
      have hcd : c = d := ((List.cons.injEq c cs d tail).mp h).1
      rw [← hcd]
      simpa using hc

theorem hasPair_append_false {l₁ l₂ : List Char} (h : hasPair (l₁ ++ l₂) = false) :
    hasPair l₂ = false := by
  induction l₁ with
  | nil => exact h
  | cons c cs ih =>
    apply ih
    have h' := h
    simp only [List.cons_append, hasPair, Bool.or_eq_false_iff] at h'
    exact h'.2

theorem scanSegs_none_noPair :
    ∀ n : Nat, ∀ cs : List Char, cs.length ≤ n → ∀ buf : List Char,
    hasPair cs = false →
    scanSegs none buf cs =
      if (buf ++ cs).isEmpty then [] else [⟨String.mk (buf ++ cs), false⟩] := by
  intro n
  induction n with
  | zero =>
    intro cs hlen buf _
    have : cs = [] := List.eq_nil_of_length_eq_zero (Nat.le_zero.mp hlen)
    subst this
    simp [scanSegs]
  | succ n ih =>
    intro cs hlen buf hnp
    match cs with
    | [] => simp [scanSegs]
    | c :: rest =>
      by_cases hc : c = '*'
      · subst hc
        have hrec : scanSegs none buf ('*' :: rest) = scanSegs (some []) buf rest := by
          simp [scanSegs]
        rw [hrec, scanSegs_some_eval rest [] buf (by intro d hd; exact absurd hd (by simp))]
        cases hdw : rest.dropWhile notStar with
        | nil =>
          simp
        | cons d tail =>
          have hdstar : d = '*' := by
            have h0 := dropWhile_head_false (p := notStar) hdw
            by_contra hne
            simp [notStar, hne] at h0
          subst hdstar
          have htwnil : rest.takeWhile notStar = [] := by
            have h' := hnp
            simp only [hasPair, Bool.or_eq_false_iff, Bool.and_eq_false_iff] at h'
            rcases h'.1 with (h1 | h1) | h1
            · simp at h1
            · simpa [List.isEmpty_iff] using h1
            · rw [hdw] at h1
              simp at h1
          have hrest : rest = '*' :: tail := by
            have h0 := List.takeWhile_append_dropWhile notStar rest
            rw [hdw, htwnil, List.nil_append] at h0
            exact h0.symm
          rw [htwnil]
          simp only [List.append_nil, List.isEmpty_nil, if_pos rfl]
          have hstep : scanSegs (some []) (buf ++ ['*']) tail
              = scanSegs none (buf ++ ['*']) ('*' :: tail) := by
            simp [scanSegs]
          have hlen' : ('*' :: tail).length ≤ n := by
            rw [hrest] at hlen
            simp at hlen ⊢
            omega
          have hnp2 : hasPair ('*' :: tail) = false := by
            have h' := hnp
            simp only [hasPair, Bool.or_eq_false_iff] at h'
            rw [← hrest]
            exact h'.2
          rw [hstep, ih ('*' :: tail) hlen' (buf ++ ['*']) hnp2]
          have hconc : buf ++ ['*'] ++ '*' :: tail = buf ++ '*' :: rest := by
            rw [hrest]
            simp
          rw [hconc]
          simp
      · have hnp' : hasPair rest = false := by
          have h' := hnp
          simp only [hasPair, Bool.or_eq_false_iff] at h'
          exact h'.2
        have hlen' : rest.length ≤ n := by
          have h0 := hlen
          simp at h0
          omega
        simp only [scanSegs]
        rw [if_neg hc, ih rest hlen' (buf ++ [c]) hnp']
        simp

/-! ### Word-wrap lemmas -/

theorem string_empty_append (s : String) : "" ++ s = s := by
  cases s
  rfl

theorem joinWords_append (ws : List String) (wd : String) :
    joinWords (ws ++ [wd]) = if ws.isEmpty then wd else joinWords ws ++ " " ++ wd := by
  induction ws with
  | nil => rfl
  | cons w ws ih =>
    cases ws with
    | nil => rfl
    | cons w2 ws2 =>
      have h1 : joinWords ((w :: w2 :: ws2) ++ [wd])
          = w ++ " " ++ joinWords ((w2 :: ws2) ++ [wd]) := rfl
      rw [h1, ih]
      simp [joinWords, String.append_assoc]

theorem concatTexts_append (l₁ l₂ : List Seg) :
    concatTexts (l₁ ++ l₂) = concatTexts l₁ ++ concatTexts l₂ := by
  induction l₁ with
  | nil =>
    rw [List.nil_append]
    exact (string_empty_append _).symm
  | cons sg l ih => simp [concatTexts, ih, String.append_assoc]

theorem wordsOfLine_append (l₁ l₂ : List Seg) :
    wordsOfLine (l₁ ++ l₂) = wordsOfLine l₁ ++ wordsOfLine l₂ := by
  simp [wordsOfLine, List.filter_append]

theorem wordsOfLine_word (wd : String) (hl : Bool) (hw : wd ≠ " ") :
    wordsOfLine [⟨wd, hl⟩] = [wd] := by
  simp [wordsOfLine, hw]

theorem wordsOfLine_space_word (wd : String) (hl : Bool) (hw : wd ≠ " ") :
    wordsOfLine [⟨" ", false⟩, ⟨wd, hl⟩] = [wd] := by
  simp [wordsOfLine, hw]

theorem splitChar_ne_nil (sep : Char) (cs : List Char) : splitChar sep cs ≠ [] := by
  cases cs with
  | nil => simp [splitChar]
  | cons c rest =>
    simp only [splitChar]
    by_cases hc : c = sep
    · simp [hc]
    · rw [if_neg hc]
      cases h : splitChar sep rest <;> simp

theorem splitChar_no_sep (sep : Char) :
    ∀ cs : List Char, ∀ p ∈ splitChar sep cs, sep ∉ p := by
  intro cs
  induction cs with
  | nil =>
    intro p hp
    simp only [splitChar, List.mem_singleton] at hp
    subst hp
    simp
  | cons c rest ih =>
    intro p hp
    simp only [splitChar] at hp
    by_cases hc : c = sep
    · rw [if_pos hc] at hp
      rcases List.mem_cons.mp hp with h | h
      · subst h; simp
      · exact ih p h
    · rw [if_neg hc] at hp
      cases hsp : splitChar sep rest with
      | nil => exact absurd hsp (splitChar_ne_nil sep rest)
      | cons hd t =>
        rw [hsp] at hp
        rcases List.mem_cons.mp hp with he | he
        · subst he
          intro hmem
          rcases List.mem_cons.mp hmem with h1 | h1
          · exact hc h1.symm
          · exact ih hd (hsp ▸ List.mem_cons_self hd t) h1
        · exact ih p (hsp ▸ List.mem_cons_of_mem hd he)

theorem pySplit_no_sep (s : String) (sep : Char) : ∀ wd ∈ pySplit s sep, sep ∉ wd.data := by
  intro wd hwd
  simp only [pySplit, List.mem_map] at hwd
  obtain ⟨p, hp, rfl⟩ := hwd
  simpa using splitChar_no_sep sep s.data p hp

theorem ne_space_of_mem_pySplit {s : String} {wd : String} (h : wd ∈ pySplit s ' ') :
    wd ≠ " " := by
  intro he
  have h2 := pySplit_no_sep s ' ' wd h
  rw [he] at h2
  simp at h2

theorem isEmpty_append_cons {α : Type} (l : List α) (x : α) (xs : List α) :
    (l ++ x :: xs).isEmpty = false := by
  cases l <;> rfl

theorem wrapStep_inv {mea : String → Int} {m : Int} (hm : 0 < m)
    (mono1 : ∀ s t : String, mea s ≤ mea (s ++ t))
    (mono2 : ∀ s t : String, mea t ≤ mea (s ++ t))
    {st : WrapSt} (hinv : wrapInv mea m st) (hl : Bool) {word : String} (hw : word ≠ " ") :
    wrapInv mea m (wrapStep mea (some m) hl st word)
    ∧ outWords (wrapStep mea (some m) hl st word)
        = outWords st ++ (if word = "" then [] else [word]) := by
  obtain ⟨hA, hB, hF, hC, hD, hE⟩ := hinv
  by_cases hwe : word = ""
  · subst hwe
    simp only [wrapStep, if_pos rfl]
    exact ⟨⟨hA, hB, hF, hC, hD, hE⟩, by simp⟩
  · simp only [wrapStep, if_neg hwe]
    by_cases hcond :
        (wrapCond (some m) (mea (joinWords (st.curWords ++ [word])))
          && !st.curWords.isEmpty) = true
    · rw [if_pos hcond]
      refine ⟨⟨?_, rfl, wordsOfLine_word word hl hw, ?_, ?_, ?_⟩, ?_⟩
      · intro line hline
        rcases List.mem_append.mp hline with h | h
        · exact hA line h
        · rw [List.mem_singleton.mp h]
          refine ⟨?_, ?_⟩
          · intro h2
            rw [hC]
            rw [hF] at h2
            exact hD h2
          · rw [hF]
            exact hE
      · show concatTexts [⟨word, hl⟩] = joinWords [word]
        simp [concatTexts, joinWords]
      · intro h2
        simp at h2
      · intro wd hwd _
        rw [List.mem_singleton.mp hwd]
      · simp only [outWords]
        rw [List.flatMap_append]
        simp [hF, List.append_assoc]
    · rw [if_neg hcond]
      by_cases hcw : st.curWords.isEmpty = true
      · have hcwn : st.curWords = [] := List.isEmpty_iff.mp hcw
        have hcsn : st.curSegs = [] := List.isEmpty_iff.mp (by rw [← hB]; exact hcw)
        rw [if_pos hcw]
        refine ⟨⟨hA, ?_, ?_, ?_, ?_, ?_⟩, ?_⟩
        · rw [hcwn, hcsn]
          rfl
        · rw [hcwn, hcsn]
          simpa using wordsOfLine_word word hl hw
        · rw [hcwn, hcsn]
          show concatTexts [⟨word, hl⟩] = joinWords [word]
          simp [concatTexts, joinWords]
        · rw [hcwn]
          intro h2
          simp at h2
        · rw [hcwn]
          intro wd hwd _
          have hww : wd = word := by simpa using hwd
          rw [hww]
          rfl
        · simp only [outWords]
          simp [List.append_assoc]
      · have hcwf : st.curWords.isEmpty = false := eq_false_of_ne_true hcw
        have hTest : mea (joinWords (st.curWords ++ [word])) ≤ m := by
          have hb : wrapCond (some m) (mea (joinWords (st.curWords ++ [word]))) = false := by
            cases hwc : wrapCond (some m) (mea (joinWords (st.curWords ++ [word])))
            · rfl
            · exfalso
              apply hcond
              rw [hwc, hcwf]
              rfl
          simp only [wrapCond, Bool.and_eq_false_iff] at hb
          rcases hb with hb | hb
          · exfalso
            rw [decide_eq_false_iff_not] at hb
            omega
          · rw [decide_eq_false_iff_not] at hb
            omega
        have htest2 : joinWords (st.curWords ++ [word])
            = joinWords st.curWords ++ " " ++ word := by
          rw [joinWords_append, if_neg (by rw [hcwf]; simp)]
        rw [if_neg hcw]
        refine ⟨⟨hA, ?_, ?_, ?_, ?_, ?_⟩, ?_⟩
        · rw [isEmpty_append_cons, isEmpty_append_cons]
        · rw [wordsOfLine_append, hF, wordsOfLine_space_word word hl hw]
        · rw [concatTexts_append, hC, htest2]
          show joinWords st.curWords ++ (" " ++ (word ++ "")) = _
          simp [String.append_assoc]
        · intro _
          exact hTest
        · intro wd hwd hwide
          exfalso
          rcases List.mem_append.mp hwd with h | h
          · have hone := hE wd h hwide
            have hle : mea wd ≤ mea (joinWords (st.curWords ++ [word])) := by
              rw [htest2, hone]
              show mea wd ≤ mea (wd ++ " " ++ word)
              calc mea wd ≤ mea (wd ++ " ") := mono1 wd " "
                _ ≤ mea (wd ++ " " ++ word) := mono1 (wd ++ " ") word
            omega
          · rw [List.mem_singleton.mp h] at hwide
            have hle : mea word ≤ mea (joinWords (st.curWords ++ [word])) := by
              rw [htest2]
              exact mono2 (joinWords st.curWords ++ " ") word
            omega
        · simp only [outWords]
          simp [List.append_assoc]

/-- Base world used by concrete witnesses: nothing on disk, no network,
every drawing primitive inert. -/
def wNull : World :=
  ⟨fun _ => false, fun _ _ => false, fun _ => none, fun _ => none, fun _ => .netErr,
   fun _ _ _ _ _ => ⟨0, 0, 0, 0⟩, fun _ _ => 0, fun c _ _ _ _ _ => c⟩

/-- A plain white canvas used by concrete witnesses. -/
def blankCanvas : PILImage := imgNew "RGB" CANVAS_W CANVAS_H ⟨255, 255, 255, 255⟩

/-- A transparent source pixel leaves an opaque backdrop pixel unchanged
under the exact alpha-over formula. -/
theorem overPx_transparent (p : Pixel) :
    overPx ⟨p.r, p.g, p.b, 255⟩ ⟨0, 0, 0, 0⟩ = ⟨p.r, p.g, p.b, 255⟩ := by
  unfold overPx
  have h0 : (((0 : Int) : ℚ)) = 0 := by norm_num
  have h255 : (((255 : Int) : ℚ)) = 255 := by norm_num
  simp only [h0, h255]
  have hoa : (0 : ℚ) + 255 * (255 - 0) / 255 = 255 := by norm_num
  rw [hoa]
  have hch : ∀ c : Int, ((c : ℚ) * 255 * (255 - 0) / 255) / 255 = (c : ℚ) := by
    intro c
    norm_num
  have hzr : ∀ c : Int, ((0 : ℚ) * 0 + (c : ℚ) * 255 * (255 - 0) / 255) / 255 = (c : ℚ) := by
    intro c
    rw [zero_mul, zero_add, hch]
  norm_num [hzr, pytrunc_intCast]
  rw [show (255 : ℚ) = ((255 : Int) : ℚ) by norm_cast, pytrunc_intCast]

/-- Claim C2 (corrected): `create_background` never clamps the overlay
strength.  A strength `≤ 0` applies no overlay at all (observably the same
as clamping from below at 0), and for a strength `s > 0` the computed
alpha is `⌊255 * s / 100⌋` with no upper clamp; only within `[0, 100]`
does that alpha lie in `[0, 255]`. -/
theorem overlay_alpha_unclamped :
    (∀ bg : PyDict, ∀ canvas : PILImage, ∀ q : ℚ,
        toNum (dictGet bg "overlay" (.vInt 0)) = some q → ¬ 0 < q →
        bgOverlay bg canvas = .ok canvas)
    ∧ (∀ q : ℚ, 0 ≤ q → overlayAlpha q = ⌊255 * q / 100⌋)
    ∧ (∀ q : ℚ, 0 ≤ q → q ≤ 100 → 0 ≤ overlayAlpha q ∧ overlayAlpha q ≤ 255) := by
  refine ⟨fun bg canvas q hq hle => ?_, fun q hq => ?_, fun q h0 h100 => ⟨?_, ?_⟩⟩
  · simp [bgOverlay, hq, hle]
  · exact pytrunc_eq_floor (by positivity)
  · exact pytrunc_nonneg (by positivity)
  · calc pytrunc (255 * q / 100) ≤ pytrunc (255 : ℚ) := pytrunc_mono (by linarith)
      _ = 255 := by
        rw [show (255 : ℚ) = ((255 : Int) : ℚ) by norm_cast, pytrunc_intCast]

/-- Counterexample to C2 as stated: at overlay strength 200 the code
computes alpha `int(255 * 200 / 100) = 510` and hands it to the overlay
layer; a compositor that clamped the strength into `[0, 100]` before the
alpha computation would use `255 * 100 / 100 = 255`. -/
theorem overlay_alpha_counterexample :
    overlayAlpha 200 = 510 ∧ (510 : Int) ≠ 255 ∧ overlayAlpha 100 = 255 := by
  refine ⟨?_, by decide, ?_⟩ <;> norm_num [overlayAlpha, pytrunc]

/-- Witness for C2 (amended): concrete instances of each conjunct. -/
theorem overlay_alpha_unclamped_witness :
    bgOverlay [("overlay", .vInt 0)] blankCanvas = .ok blankCanvas
    ∧ overlayAlpha 50 = ⌊255 * (50 : ℚ) / 100⌋
    ∧ (0 ≤ overlayAlpha 50 ∧ overlayAlpha 50 ≤ 255) :=
  ⟨overlay_alpha_unclamped.1 [("overlay", .vInt 0)] blankCanvas ((0 : Int) : ℚ) rfl
      (by norm_num),
   overlay_alpha_unclamped.2.1 50 (by norm_num),
   overlay_alpha_unclamped.2.2 50 (by norm_num) (by norm_num)⟩

/-- Claim C4 (corrected): the gradient layer is fully transparent at row
`0.4 * H = 540` and above, so compositing leaves those rows untouched; the
per-row alpha is monotonically non-decreasing in the row index; but at the
last row `H - 1 = 1349` the alpha is `⌊maxAlpha * 809/810⌋`, which is
bounded by — yet in general falls short of — the configured maximum alpha
(254 versus 255 at strength 100). -/
theorem gradient_overlay_profile :
    (∀ q : ℚ, ∀ x y : Int, y ≤ 540 → (gradientImage q).px x y = ⟨0, 0, 0, 0⟩)
    ∧ (∀ base : PILImage, ∀ q : ℚ, ∀ x y : Int, base.mode = "RGB" → y ≤ 540 →
        (alphaComposite (convertImg base "RGBA") (gradientImage q)).px x y
          = (convertImg base "RGBA").px x y)
    ∧ (∀ q : ℚ, 0 ≤ q → ∀ y₁ y₂ : Int, y₁ ≤ y₂ →
        gradientAlpha q y₁ ≤ gradientAlpha q y₂)
    ∧ (∀ q : ℚ, 0 ≤ q → ∀ y : Int, y ≤ 1349 → gradientAlpha q y ≤ overlayAlpha q)
    ∧ (∀ q : ℚ, 0 ≤ q → gradientAlpha q 1349 = ⌊255 * q / 100 * (809 / 810)⌋) := by
  have hrow : ∀ y : Int, y ≤ 540 → ¬ (2 / 5 : ℚ) < (y : ℚ) / (CANVAS_H : ℚ) := by
    intro y hy
    rw [not_lt, div_le_iff₀ (by norm_num [CANVAS_H])]
    have : (y : ℚ) ≤ 540 := by exact_mod_cast hy
    norm_num [CANVAS_H]
    linarith
  refine ⟨fun q x y hy => ?_, fun base q x y hm hy => ?_,
    fun q hq y₁ y₂ hle => ?_, fun q hq y hy => ?_, fun q hq => ?_⟩
  · simp only [gradientImage]
    rw [if_neg (hrow y hy)]
  · show overPx ((convertImg base "RGBA").px x y) ((gradientImage q).px x y)
      = (convertImg base "RGBA").px x y
    have htop : (gradientImage q).px x y = ⟨0, 0, 0, 0⟩ := by
      simp only [gradientImage]
      rw [if_neg (hrow y hy)]
    rw [htop]
    have hbot : (convertImg base "RGBA").px x y
        = ⟨(base.px x y).r, (base.px x y).g, (base.px x y).b, 255⟩ := by
      simp [convertImg, hm]
    rw [hbot]
    exact overPx_transparent (base.px x y)
  · apply pytrunc_mono
    have hc : (y₁ : ℚ) ≤ (y₂ : ℚ) := by exact_mod_cast hle
    gcongr
  · apply pytrunc_mono
    have hy' : (y : ℚ) ≤ 1349 := by exact_mod_cast hy
    have h1 : (((y : ℚ) / (CANVAS_H : ℚ) - 2 / 5) / (3 / 5)) ≤ 1 := by
      rw [div_le_one (by norm_num)]
      norm_num [CANVAS_H]
      linarith
    calc 255 * q / 100 * (((y : ℚ) / (CANVAS_H : ℚ) - 2 / 5) / (3 / 5))
        ≤ 255 * q / 100 * 1 := by
          apply mul_le_mul_of_nonneg_left h1 (by positivity)
      _ = 255 * q / 100 := mul_one _
  · show pytrunc (255 * q / 100 * ((((1349 : Int) : ℚ) / (CANVAS_H : ℚ) - 2 / 5) / (3 / 5)))
      = ⌊255 * q / 100 * (809 / 810)⌋
    have harg : 255 * q / 100 * ((((1349 : Int) : ℚ) / (CANVAS_H : ℚ) - 2 / 5) / (3 / 5))
        = 255 * q / 100 * (809 / 810) := by
      norm_num [CANVAS_H]
    rw [harg, pytrunc_eq_floor (by positivity)]

/-- Counterexample to C4 as stated: at strength 100 the configured maximum
alpha is 255 but the alpha at the last gradient row `H - 1 = 1349` is 254. -/
theorem gradient_endpoint_counterexample :
    gradientAlpha 100 1349 = 254 ∧ overlayAlpha 100 = 255 ∧ (254 : Int) ≠ 255 := by
  refine ⟨?_, ?_, by decide⟩ <;> norm_num [gradientAlpha, overlayAlpha, pytrunc, CANVAS_H]

/-- Witness for C4 (amended): concrete instances of each conjunct. -/
theorem gradient_overlay_profile_witness :
    (gradientImage 80).px 0 540 = ⟨0, 0, 0, 0⟩
    ∧ (alphaComposite (convertImg blankCanvas "RGBA") (gradientImage 80)).px 3 100
        = (convertImg blankCanvas "RGBA").px 3 100
    ∧ gradientAlpha 80 600 ≤ gradientAlpha 80 1200
    ∧ gradientAlpha 80 1349 ≤ overlayAlpha 80
    ∧ gradientAlpha 80 1349 = ⌊255 * (80 : ℚ) / 100 * (809 / 810)⌋ :=
  ⟨gradient_overlay_profile.1 80 0 540 (by norm_num),
   gradient_overlay_profile.2.1 blankCanvas 80 3 100 rfl (by norm_num),
   gradient_overlay_profile.2.2.1 80 (by norm_num) 600 1200 (by norm_num),
   gradient_overlay_profile.2.2.2.1 80 (by norm_num) 1349 (by norm_num),
   gradient_overlay_profile.2.2.2.2 80 (by norm_num)⟩

theorem wrapWords_inv {mea : String → Int} {m : Int} (hm : 0 < m)
    (mono1 : ∀ s t : String, mea s ≤ mea (s ++ t))
    (mono2 : ∀ s t : String, mea t ≤ mea (s ++ t)) (hl : Bool) :
    ∀ (ws : List String) (st : WrapSt), wrapInv mea m st → (∀ wd ∈ ws, wd ≠ " ") →
    wrapInv mea m (ws.foldl (wrapStep mea (some m) hl) st)
    ∧ outWords (ws.foldl (wrapStep mea (some m) hl) st)
        = outWords st ++ ws.filter (fun wd => decide (wd ≠ "")) := by
  intro ws
  induction ws with
  | nil =>
    intro st hinv _
    exact ⟨hinv, by simp⟩
  | cons w ws ih =>
    intro st hinv hws
    have hw : w ≠ " " := hws w (List.mem_cons_self w ws)
    obtain ⟨hinv1, hout1⟩ := wrapStep_inv hm mono1 mono2 hinv hl hw
    obtain ⟨hinv2, hout2⟩ := ih (wrapStep mea (some m) hl st w) hinv1
      (fun wd hwd => hws wd (List.mem_cons_of_mem w hwd))
    refine ⟨by rw [List.foldl_cons]; exact hinv2, ?_⟩
    rw [List.foldl_cons, hout2, hout1]
    by_cases hwe : w = ""
    · subst hwe
      simp [List.filter_cons]
    · simp [List.filter_cons, hwe, List.append_assoc]

theorem flushLine_inv {mea : String → Int} {m : Int} {st : WrapSt}
    (hinv : wrapInv mea m st) :
    wrapInv mea m (flushLine st) ∧ outWords (flushLine st) = outWords st := by
  obtain ⟨hA, hB, hF, hC, hD, hE⟩ := hinv
  refine ⟨⟨?_, rfl, rfl, rfl, ?_, ?_⟩, ?_⟩
  · intro line hline
    rcases List.mem_append.mp hline with h | h
    · exact hA line h
    · rw [List.mem_singleton.mp h]
      refine ⟨fun h2 => ?_, ?_⟩
      · rw [hC]
        rw [hF] at h2
        exact hD h2
      · rw [hF]
        exact hE
  · intro h2
    simp [flushLine] at h2
  · intro wd hwd
    simp [flushLine] at hwd
  · simp only [outWords, flushLine]
    rw [List.flatMap_append]
    simp [hF]

theorem wrapPart_inv {mea : String → Int} {m : Int} (hm : 0 < m)
    (mono1 : ∀ s t : String, mea s ≤ mea (s ++ t))
    (mono2 : ∀ s t : String, mea t ≤ mea (s ++ t)) (hl : Bool) (part : String)
    {st : WrapSt} (hinv : wrapInv mea m st) :
    wrapInv mea m (wrapPart mea (some m) hl st part)
    ∧ outWords (wrapPart mea (some m) hl st part)
        = outWords st ++ (pySplit part ' ').filter (fun wd => decide (wd ≠ "")) :=
  wrapWords_inv hm mono1 mono2 hl (pySplit part ' ') st hinv
    (fun _ hwd => ne_space_of_mem_pySplit hwd)

theorem wrapParts_inv {mea : String → Int} {m : Int} (hm : 0 < m)
    (mono1 : ∀ s t : String, mea s ≤ mea (s ++ t))
    (mono2 : ∀ s t : String, mea t ≤ mea (s ++ t)) (hl : Bool) :
    ∀ (ps : List String) (st : WrapSt), wrapInv mea m st →
    wrapInv mea m (ps.foldl (fun s part => wrapPart mea (some m) hl (flushLine s) part) st)
    ∧ outWords (ps.foldl (fun s part => wrapPart mea (some m) hl (flushLine s) part) st)
        = outWords st
          ++ ps.flatMap (fun part => (pySplit part ' ').filter (fun wd => decide (wd ≠ ""))) := by
  intro ps
  induction ps with
  | nil =>
    intro st hinv
    exact ⟨hinv, by simp⟩
  | cons p ps ih =>
    intro st hinv
    obtain ⟨hf, hfo⟩ := flushLine_inv hinv
    obtain ⟨hp, hpo⟩ := wrapPart_inv hm mono1 mono2 hl p hf
    obtain ⟨hrest, hresto⟩ := ih _ hp
    refine ⟨by rw [List.foldl_cons]; exact hrest, ?_⟩
    rw [List.foldl_cons, hresto, hpo, hfo]
    simp [List.append_assoc]

theorem wrapSeg_inv {mea : String → Int} {m : Int} (hm : 0 < m)
    (mono1 : ∀ s t : String, mea s ≤ mea (s ++ t))
    (mono2 : ∀ s t : String, mea t ≤ mea (s ++ t)) (sg : Seg)
    {st : WrapSt} (hinv : wrapInv mea m st) :
    wrapInv mea m (wrapSeg mea (some m) st sg)
    ∧ outWords (wrapSeg mea (some m) st sg) = outWords st ++ segWords sg := by
  unfold wrapSeg segWords
  cases hsp : pySplit sg.text '\n' with
  | nil => exact ⟨hinv, by simp⟩
  | cons p ps =>
    obtain ⟨h1, h1o⟩ := wrapPart_inv hm mono1 mono2 sg.hl p hinv
    obtain ⟨h2, h2o⟩ := wrapParts_inv hm mono1 mono2 sg.hl ps _ h1
    refine ⟨h2, ?_⟩
    rw [h2o, h1o]
    simp [List.append_assoc]

theorem wrapLines_good {mea : String → Int} {m : Int} (hm : 0 < m)
    (mono1 : ∀ s t : String, mea s ≤ mea (s ++ t))
    (mono2 : ∀ s t : String, mea t ≤ mea (s ++ t)) (segs : List Seg) :
    (∀ line ∈ wrapLines mea (some m) segs, lineGood mea m line)
    ∧ (wrapLines mea (some m) segs).flatMap wordsOfLine = allWords segs := by
  have hfold : ∀ (sl : List Seg) (st : WrapSt), wrapInv mea m st →
      wrapInv mea m (sl.foldl (wrapSeg mea (some m)) st)
      ∧ outWords (sl.foldl (wrapSeg mea (some m)) st) = outWords st ++ sl.flatMap segWords := by
    intro sl
    induction sl with
    | nil =>
      intro st hinv
      exact ⟨hinv, by simp⟩
    | cons sg sl ih =>
      intro st hinv
      obtain ⟨h1, h1o⟩ := wrapSeg_inv hm mono1 mono2 sg hinv
      obtain ⟨h2, h2o⟩ := ih _ h1
      refine ⟨by rw [List.foldl_cons]; exact h2, ?_⟩
      rw [List.foldl_cons, h2o, h1o]
      simp [List.append_assoc]
  have hinit : wrapInv mea m ⟨[], [], []⟩ := by
    refine ⟨?_, rfl, rfl, rfl, ?_, ?_⟩
    · intro line hline
      simp at hline
    · intro h2
      simp [WrapSt.curWords] at h2
    · intro wd hwd
      simp [WrapSt.curWords] at hwd
  obtain ⟨hinv, hout⟩ := hfold segs ⟨[], [], []⟩ hinit
  have houtw : outWords (segs.foldl (wrapSeg mea (some m)) ⟨[], [], []⟩) = allWords segs := by
    rw [hout]
    simp [outWords, allWords]
  obtain ⟨hA, hB, hF, hC, hD, hE⟩ := hinv
  unfold wrapLines
  by_cases hcs : (segs.foldl (wrapSeg mea (some m)) ⟨[], [], []⟩).curSegs.isEmpty = true
  · rw [if_pos hcs]
    refine ⟨hA, ?_⟩
    have hcw : (segs.foldl (wrapSeg mea (some m)) ⟨[], [], []⟩).curWords = [] := by
      apply List.isEmpty_iff.mp
      rw [hB]
      exact hcs
    rw [← houtw]
    simp [outWords, hcw]
  · rw [if_neg hcs]
    constructor
    · intro line hline
      rcases List.mem_append.mp hline with h | h
      · exact hA line h
      · rw [List.mem_singleton.mp h]
        refine ⟨fun h2 => ?_, ?_⟩
        · rw [hC]
          rw [hF] at h2
          exact hD h2
        · rw [hF]
          exact hE
    · rw [← houtw, List.flatMap_append]
      simp [outWords, hF]

/-- Claim C6: with `maxWidth` set to a positive limit and any measure that
is monotone under string concatenation (rendered advance widths are),
every emitted line holding at least two words measures within `maxWidth`;
a word measuring wider than `maxWidth` is placed on a line of its own; and
the emitted lines carry exactly the words of the input segments, in order
— no word is dropped or split. -/
theorem wordwrap_maxwidth (mea : String → Int) (m : Int) (hm : 0 < m)
    (mono1 : ∀ s t : String, mea s ≤ mea (s ++ t))
    (mono2 : ∀ s t : String, mea t ≤ mea (s ++ t)) (segs : List Seg) :
    (∀ line ∈ wrapLines mea (some m) segs,
        2 ≤ (wordsOfLine line).length → mea (concatTexts line) ≤ m)
    ∧ (∀ line ∈ wrapLines mea (some m) segs,
        ∀ wd ∈ wordsOfLine line, m < mea wd → wordsOfLine line = [wd])
    ∧ (wrapLines mea (some m) segs).flatMap wordsOfLine = allWords segs := by
  obtain ⟨hgood, hwords⟩ := wrapLines_good hm mono1 mono2 segs
  exact ⟨fun line h => (hgood line h).1, fun line h => (hgood line h).2, hwords⟩

/-- Witness for C6: the length measure on the segments of
`"aaaaaaa bb cc"` with limit 5 — the first word is overwide, the rest
wrap. -/
theorem wordwrap_maxwidth_witness :
    (∀ line ∈ wrapLines (fun s => (s.length : Int)) (some 5) [⟨"aaaaaaa bb cc", false⟩],
        2 ≤ (wordsOfLine line).length
          → (fun s => ((s : String).length : Int)) (concatTexts line) ≤ 5)
    ∧ (∀ line ∈ wrapLines (fun s => (s.length : Int)) (some 5) [⟨"aaaaaaa bb cc", false⟩],
        ∀ wd ∈ wordsOfLine line, 5 < (wd.length : Int) → wordsOfLine line = [wd])
    ∧ (wrapLines (fun s => (s.length : Int)) (some 5)
        [⟨"aaaaaaa bb cc", false⟩]).flatMap wordsOfLine
        = allWords [⟨"aaaaaaa bb cc", false⟩] :=
  wordwrap_maxwidth (fun s => (s.length : Int)) 5 (by norm_num)
    (fun s t => by simp [String.length_append])
    (fun s t => by simp [String.length_append]) [⟨"aaaaaaa bb cc", false⟩]

/-- Claim C7: highlight segmentation round-trips plain text.  A content
string without any star yields exactly one plain segment equal to the
input; and a content string that contains a star but no complete
star-delimited span anywhere (so every star, a leading one in particular,
lacks a matching closing star) is emitted whole — the remainder from that
star onward included — as one single plain segment, with no highlight
segment produced. -/
theorem highlight_segmentation_roundtrip :
    (∀ c : String, '*' ∉ c.data → pySegments c = [⟨c, false⟩])
    ∧ (∀ c : String, '*' ∈ c.data → hasPair c.data = false → pySegments c = [⟨c, false⟩]) := by
  constructor
  · intro c hc
    unfold pySegments
    cases hd : c.data with
    | nil => rfl
    | cons x xs =>
      have hnostar : ∀ d ∈ x :: xs, d ≠ '*' := by
        rw [← hd]
        exact fun d hd' he => hc (he ▸ hd')
      rw [scanSegs_none_noStar (x :: xs) [] hnostar, List.nil_append,
        if_neg (show ¬ ((x :: xs).isEmpty = true) by simp)]
      show [(⟨String.mk (x :: xs), false⟩ : Seg)] = [⟨c, false⟩]
      rw [← hd, strMk_data]
  · intro c hstar hnp
    unfold pySegments
    cases hd : c.data with
    | nil =>
      rw [hd] at hstar
      simp at hstar
    | cons x xs =>
      have hnp' : hasPair (x :: xs) = false := by
        rw [← hd]
        exact hnp
      rw [scanSegs_none_noPair (x :: xs).length (x :: xs) le_rfl [] hnp',
        List.nil_append, if_neg (show ¬ ((x :: xs).isEmpty = true) by simp)]
      show [(⟨String.mk (x :: xs), false⟩ : Seg)] = [⟨c, false⟩]
      rw [← hd, strMk_data]

/-- Witness for C7: a star-free string and a string with an unmatched
star. -/
theorem highlight_segmentation_roundtrip_witness :
    pySegments "hello world" = [⟨"hello world", false⟩]
    ∧ pySegments "ab*cd" = [⟨"ab*cd", false⟩] :=
  ⟨highlight_segmentation_roundtrip.1 "hello world" (by decide),
   highlight_segmentation_roundtrip.2 "ab*cd" (by decide) (by decide)⟩

/-- Claim C3 (corrected): the weight table maps 300..900 to the named
styles with 400 as Regular, but the styled file name `{family}-{style}` is
built only for the bundled `Inter` family; any other family is looked up
under its bare name.  After the first two candidate paths (`.otf` then
`.ttf` for the resolved name) the chain tries the bundled Inter files,
then the DejaVu platform fonts (the bold variant first for heavy weights),
and a miss on every candidate yields the built-in default font, which
never fails.  Results are cached under the resolved name and size, so
repeating a request returns the same handle and leaves the cache as is. -/
theorem font_resolution_semantics :
    (weightName "300" = "Light" ∧ weightName "400" = "Regular" ∧ weightName "500" = "Medium"
      ∧ weightName "600" = "SemiBold" ∧ weightName "700" = "Bold"
      ∧ weightName "800" = "ExtraBold" ∧ weightName "900" = "Black")
    ∧ (∀ wn : String, wn ≠ "Regular" → fontName (.vStr "Inter") wn = "Inter-" ++ wn)
    ∧ (∀ fam : Val, pyEqStr fam "Inter" = false → ∀ wn : String,
        fontName fam wn = pyStrOfVal fam)
    ∧ (∀ w : World, ∀ size : Int, ∀ p : String, ∀ ps : List String,
        w.pathExists p = true → w.fontLoads p size = true →
        resolveFont w size (p :: ps) = .truetype p size)
    ∧ (∀ w : World, ∀ size : Int, ∀ p : String, ∀ ps : List String,
        ¬ (w.pathExists p = true ∧ w.fontLoads p size = true) →
        resolveFont w size (p :: ps) = resolveFont w size ps)
    ∧ (∀ w : World, ∀ size : Int, ∀ ps : List String,
        (∀ p ∈ ps, ¬ (w.pathExists p = true ∧ w.fontLoads p size = true)) →
        resolveFont w size ps = .loadDefault)
    ∧ (∀ w : World, ∀ cache : FontCache, ∀ fam : Val, ∀ size : Int, ∀ weight : String,
        get_font w (get_font w cache fam size weight).2 fam size weight
          = get_font w cache fam size weight) := by
  refine ⟨⟨rfl, rfl, rfl, rfl, rfl, rfl, rfl⟩, fun wn hwn => ?_, fun fam hf wn => ?_,
    fun w size p ps he hl => ?_, fun w size p ps hno => ?_,
    fun w size ps hall => ?_, fun w cache fam size weight => ?_⟩
  · simp [fontName, pyEqStr, hwn]
  · simp [fontName, hf]
  · simp [resolveFont, he, hl]
  · simp only [resolveFont]
    rw [if_neg hno]
  · induction ps with
    | nil => rfl
    | cons p ps ih =>
      simp only [resolveFont]
      rw [if_neg (hall p (List.mem_cons_self p ps))]
      exact ih (fun q hq => hall q (List.mem_cons_of_mem p hq))
  · unfold get_font
    cases hf : cache.find?
        (fun q => q.1 == fontName fam (weightName weight) ++ "_" ++ toString size) with
    | some q => simp [hf]
    | none => simp [hf, List.find?]

/-- Counterexample to C3 as stated: the weight-styled file name is not
tried for families other than Inter.  With `fonts/Roboto-Bold.otf` present
on disk (and every font file loadable), resolving Roboto at weight 700
ignores it — no candidate path mentions it — and falls through to the
built-in default font. -/
theorem font_styled_name_counterexample :
    (⟨fun p => p == "fonts/Roboto-Bold.otf", fun _ _ => true, fun _ => none, fun _ => none,
      fun _ => .netErr, fun _ _ _ _ _ => ⟨0, 0, 0, 0⟩, fun _ _ => 0,
      fun c _ _ _ _ _ => c⟩ : World).pathExists "fonts/Roboto-Bold.otf" = true
    ∧ (get_font
        ⟨fun p => p == "fonts/Roboto-Bold.otf", fun _ _ => true, fun _ => none, fun _ => none,
         fun _ => .netErr, fun _ _ _ _ _ => ⟨0, 0, 0, 0⟩, fun _ _ => 0,
         fun c _ _ _ _ _ => c⟩ [] (.vStr "Roboto") 20 "700").1 = .loadDefault
    ∧ "fonts/Roboto-Bold.otf"
        ∉ fontPaths (fontName (.vStr "Roboto") (weightName "700")) (weightName "700") := by
  refine ⟨rfl, rfl, by decide⟩

/-- Witness for C3 (amended): concrete instances of the conditional
conjuncts. -/
theorem font_resolution_semantics_witness :
    fontName (.vStr "Inter") "Bold" = "Inter-" ++ "Bold"
    ∧ fontName (.vStr "Roboto") "Bold" = pyStrOfVal (.vStr "Roboto")
    ∧ resolveFont wNull 20 ["fonts/a.otf"] = .loadDefault
    ∧ get_font wNull (get_font wNull [] (.vStr "Inter") 20 "700").2 (.vStr "Inter") 20 "700"
        = get_font wNull [] (.vStr "Inter") 20 "700" :=
  ⟨font_resolution_semantics.2.1 "Bold" (by decide),
   font_resolution_semantics.2.2.1 (.vStr "Roboto") (by decide) "Bold",
   font_resolution_semantics.2.2.2.2.2.1 wNull 20 ["fonts/a.otf"]
     (by intro p _ h; simp [wNull] at h),
   font_resolution_semantics.2.2.2.2.2.2 wNull [] (.vStr "Inter") 20 "700"⟩

/-- Claim C8 (corrected): the loader yields `none` (never an exception —
it returns an `Option`, every internal failure having been collapsed by
the blanket handler) for an empty or `None` source; a `data:` source is
split at its first comma and the payload is base64-decoded then
image-decoded; network errors, timeouts and HTTP statuses in the
`raise_for_status` error range `400..599` yield `none`.  However, only
that range is treated as a failure: a non-2xx status outside it (for
example a 301 redirect) has its body decoded like a success. -/
theorem load_image_failure_semantics :
    (∀ w : World, load_image w (.vStr "") = none ∧ load_image w .vNone = none)
    ∧ (∀ w : World, ∀ s : String, pyStartsWith s "data:" = true →
        load_image w (.vStr s) =
          (match splitFirstComma s with
           | none => none
           | some (_, payload) =>
             match w.b64Decode (String.mk payload) with
             | none => none
             | some bytes => w.decodeBytes bytes))
    ∧ (∀ w : World, ∀ s : String, ∀ status : Nat, ∀ body : String,
        pyStartsWith s "data:" = false → pyStartsWith s "http" = true →
        w.httpGet s = .success status body →
        load_image w (.vStr s) =
          if 400 ≤ status ∧ status < 600 then none else w.decodeBytes body)
    ∧ (∀ w : World, ∀ s : String,
        pyStartsWith s "data:" = false → pyStartsWith s "http" = true →
        (w.httpGet s = .netErr ∨ w.httpGet s = .timeout) →
        load_image w (.vStr s) = none)
    ∧ (∀ w : World, ∀ s : String,
        pyStartsWith s "data:" = false → pyStartsWith s "http" = false →
        load_image w (.vStr s) = none) := by
  have htr : ∀ s : String, s ≠ "" → pyTruthy (.vStr s) = true := by
    intro s hs
    simp [pyTruthy, hs]
  have hne : ∀ s : String, pyStartsWith s "http" = true → s ≠ "" := by
    intro s h he
    subst he
    exact absurd h (by decide)
  have hned : ∀ s : String, pyStartsWith s "data:" = true → s ≠ "" := by
    intro s h he
    subst he
    exact absurd h (by decide)
  refine ⟨fun w => ⟨rfl, rfl⟩, fun w s hd => ?_, fun w s status body hd hh hg => ?_,
    fun w s hd hh hg => ?_, fun w s hd hh => ?_⟩
  · simp [load_image, htr s (hned s hd), hd]
  · simp [load_image, htr s (hne s hh), hd, hh, hg]
  · by_cases hs : s = ""
    · subst hs
      rfl
    · rcases hg with hg | hg <;> simp [load_image, htr s hs, hd, hh, hg]
  · by_cases hs : s = ""
    · subst hs
      rfl
    · simp [load_image, htr s hs, hd, hh]

/-- An image decoded by the counterexample world below. -/
def img1 : PILImage := imgNew "RGB" 1 1 ⟨0, 0, 0, 255⟩

/-- Counterexample to C8 as stated: a response with the non-2xx status 301
is not reduced to "no image" — `raise_for_status` only raises for statuses
in `400..599`, so the body is decoded and the loader returns an image. -/
theorem load_image_non2xx_counterexample :
    load_image
      ⟨fun _ => false, fun _ _ => false, fun _ => none,
       fun b => if b = "B" then some img1 else none, fun _ => .success 301 "B",
       fun _ _ _ _ _ => ⟨0, 0, 0, 0⟩, fun _ _ => 0, fun c _ _ _ _ _ => c⟩
      (.vStr "http://example.com/a") = some img1
    ∧ some img1 ≠ (none : Option PILImage) := by
  refine ⟨rfl, by simp⟩

/-- Witness for C8 (amended): concrete instances of each conjunct,
including a 404 response reduced to `none` through the `400..599` test. -/
theorem load_image_failure_semantics_witness :
    load_image wNull (.vStr "") = none
    ∧ load_image wNull (.vStr "data:image/png;base64,AAA") =
        (match splitFirstComma "data:image/png;base64,AAA" with
         | none => none
         | some (_, payload) =>
           match wNull.b64Decode (String.mk payload) with
           | none => none
           | some bytes => wNull.decodeBytes bytes)
    ∧ load_image
        ⟨fun _ => false, fun _ _ => false, fun _ => none, fun _ => none,
         fun _ => .success 404 "B", fun _ _ _ _ _ => ⟨0, 0, 0, 0⟩, fun _ _ => 0,
         fun c _ _ _ _ _ => c⟩ (.vStr "http://e") =
        (if 400 ≤ 404 ∧ 404 < 600 then none else
          (⟨fun _ => false, fun _ _ => false, fun _ => none, fun _ => none,
            fun _ => .success 404 "B", fun _ _ _ _ _ => ⟨0, 0, 0, 0⟩, fun _ _ => 0,
            fun c _ _ _ _ _ => c⟩ : World).decodeBytes "B")
    ∧ load_image wNull (.vStr "http://e") = none
    ∧ load_image wNull (.vStr "ftp://e") = none :=
  ⟨(load_image_failure_semantics.1 wNull).1,
   load_image_failure_semantics.2.1 wNull "data:image/png;base64,AAA" (by decide),
   load_image_failure_semantics.2.2.1
     ⟨fun _ => false, fun _ _ => false, fun _ => none, fun _ => none,
      fun _ => .success 404 "B", fun _ _ _ _ _ => ⟨0, 0, 0, 0⟩, fun _ _ => 0,
      fun c _ _ _ _ _ => c⟩ "http://e" 404 "B" (by decide) (by decide) rfl,
   load_image_failure_semantics.2.2.2.1 wNull "http://e" (by decide) (by decide) (Or.inl rfl),
   load_image_failure_semantics.2.2.2.2 wNull "ftp://e" (by decide) (by decide)⟩

/-- Claim C5: `photoZoom` is clamped to at least 1 by `max(1, ...)`; the
resized pre-crop dimensions of a loaded background photo are at least the
canvas dimensions on both axes (and at least the element box dimensions
for photo elements, which have no zoom); and the crop box passed to
`img.crop` measures exactly the target dimensions, so the crop yields
exactly the canvas (respectively box) size. -/
theorem cover_fit_dims :
    (∀ v : Val, ∀ q : ℚ, bgZoom v = .ok q → 1 ≤ q)
    ∧ (∀ iw ih : Nat, ∀ z : ℚ, 0 < iw → 0 < ih → 1 ≤ z →
        (1080 : Int) ≤ (bgFitDims iw ih z).1 ∧ (1350 : Int) ≤ (bgFitDims iw ih z).2)
    ∧ (∀ img : PILImage, ∀ ox oy : Int,
        (cropImg img ox oy (ox + (CANVAS_W : Int)) (oy + (CANVAS_H : Int))).width = 1080
        ∧ (cropImg img ox oy (ox + (CANVAS_W : Int)) (oy + (CANVAS_H : Int))).height = 1350)
    ∧ (∀ iw ih : Nat, ∀ bw bh : Int, 0 < iw → 0 < ih → 0 < bw → 0 < bh →
        bw ≤ (elFitDims iw ih bw bh).1 ∧ bh ≤ (elFitDims iw ih bw bh).2)
    ∧ (∀ img : PILImage, ∀ l t bw bh : Int, 0 ≤ bw → 0 ≤ bh →
        (cropImg img l t (l + bw) (t + bh)).width = bw.toNat
        ∧ (cropImg img l t (l + bw) (t + bh)).height = bh.toNat) := by
  refine ⟨fun v q h => ?_, fun iw ih z hiw hih hz => ?_, fun img ox oy => ?_,
    fun iw ih bw bh hiw hih hbw hbh => ?_, fun img l t bw bh hbw hbh => ?_⟩
  · unfold bgZoom toNumE at h
    cases htn : toNum v with
    | none => rw [htn] at h; exact absurd h (by simp)
    | some q0 =>
      rw [htn] at h
      simp only [pyBind_ok, pyPure, Except.ok.injEq] at h
      rw [← h]
      exact le_max_left 1 q0
  · exact bgFitDims_ge hiw hih hz
  · constructor
    · show (ox + (CANVAS_W : Int) - ox).toNat = 1080
      norm_num [CANVAS_W]
      decide
    · show (oy + (CANVAS_H : Int) - oy).toNat = 1350
      norm_num [CANVAS_H]
      decide
  · exact elFitDims_ge hiw hih hbw hbh
  · constructor
    · show (l + bw - l).toNat = bw.toNat
      congr 1
      omega
    · show (t + bh - t).toNat = bh.toNat
      congr 1
      omega

/-- Witness for C5: a 500 by 400 photo on the canvas and a 100 by 50 photo
in a 300 by 300 box. -/
theorem cover_fit_dims_witness :
    (1 : ℚ) ≤ 2 ∧
    ((1080 : Int) ≤ (bgFitDims 500 400 2).1 ∧ (1350 : Int) ≤ (bgFitDims 500 400 2).2)
    ∧ (cropImg blankCanvas 7 9 (7 + (CANVAS_W : Int)) (9 + (CANVAS_H : Int))).width = 1080
    ∧ ((300 : Int) ≤ (elFitDims 100 50 300 300).1 ∧ (300 : Int) ≤ (elFitDims 100 50 300 300).2)
    ∧ (cropImg blankCanvas 2 3 (2 + 300) (3 + 300)).width = (300 : Int).toNat :=
  ⟨cover_fit_dims.1 (.vFloat 2) 2 rfl,
   cover_fit_dims.2.1 500 400 2 (by decide) (by decide) (by norm_num),
   (cover_fit_dims.2.2.1 blankCanvas 7 9).1,
   cover_fit_dims.2.2.2.1 100 50 300 300 (by decide) (by decide) (by decide) (by decide),
   (cover_fit_dims.2.2.2.2 blankCanvas 2 3 300 300 (by decide) (by decide)).1⟩

/-- Claim C9: for every photo element whose image source is missing (falsy)
or fails to load, `draw_photo_element` is a no-op — it returns the canvas
itself, so every pixel is unchanged. -/
theorem photo_element_noop (w : World) (canvas : PILImage) (d : PyDict)
    (h : pyTruthy (dictGet d "photo" .vNone) = false ∨
         load_image w (dictGet d "photo" .vNone) = none) :
    draw_photo_element w canvas (.vDict d) = .ok canvas := by
  rcases h with h | h
  · simp [draw_photo_element, asDictE, h]
  · cases htr : pyTruthy (dictGet d "photo" .vNone)
    · simp [draw_photo_element, asDictE, htr]
    · simp [draw_photo_element, asDictE, htr, h]

/-- Witness for C9: an element with no `photo` key, and one whose remote
photo fails to load, both leave the canvas untouched. -/
theorem photo_element_noop_witness :
    draw_photo_element wNull blankCanvas (.vDict []) = .ok blankCanvas ∧
    draw_photo_element wNull blankCanvas (.vDict [("photo", .vStr "http://x")])
      = .ok blankCanvas :=
  ⟨photo_element_noop wNull blankCanvas [] (Or.inl rfl),
   photo_element_noop wNull blankCanvas [("photo", .vStr "http://x")] (Or.inr rfl)⟩

/-- Claim C10: an empty-string `usernameOverride` is falsy, so the Python
`or` ignores it: the content falls back to the settings username, and to
the default `"@username"` when that key is absent; a non-empty override
string is applied as-is.  `contentFor` is the materialization step used by
`draw_text_element`. -/
theorem username_override_semantics :
    (∀ st : PyDict, resolveUsername (.vStr "") st = dictGet st "username" (.vStr "@username"))
    ∧ resolveUsername (.vStr "") [] = .vStr "@username"
    ∧ (∀ s : String, s ≠ "" → ∀ st : PyDict, resolveUsername (.vStr s) st = .vStr s)
    ∧ (∀ d st : PyDict, ∀ ov c0 : Val, ∀ n t : Int,
        pyEqStr (dictGet d "type" .vNone) "username" = true →
        contentFor d (.vDict st) ov n t c0 = .ok (resolveUsername ov st)) := by
  refine ⟨fun st => ?_, ?_, fun s hs st => ?_, fun d st ov c0 n t h => ?_⟩
  · simp [resolveUsername, pyTruthy]
  · simp [resolveUsername, pyTruthy, dictGet]
  · simp [resolveUsername, pyTruthy, hs]
  · simp [contentFor, h, asDictE]

/-- Witness for C10: concrete override values against concrete settings. -/
theorem username_override_semantics_witness :
    resolveUsername (.vStr "") [("username", .vStr "@me")] = .vStr "@me"
    ∧ resolveUsername (.vStr "") [] = .vStr "@username"
    ∧ resolveUsername (.vStr "@ovr") [("username", .vStr "@me")] = .vStr "@ovr"
    ∧ contentFor [("type", .vStr "username")] (.vDict []) (.vStr "") 1 1 (.vStr "c")
        = .ok (.vStr "@username") := by
  refine ⟨?_, username_override_semantics.2.1, ?_, ?_⟩
  · exact (username_override_semantics.1 [("username", .vStr "@me")]).trans rfl
  · exact username_override_semantics.2.2.1 "@ovr" (by decide) [("username", .vStr "@me")]
  · exact (username_override_semantics.2.2.2 [("type", .vStr "username")] [] (.vStr "") (.vStr "c")
      1 1 (by decide)).trans (by rw [username_override_semantics.2.1])

/-- Counterexample to Claim C1 as stated: a slide whose single element
carries `fontSize: "abc"` makes `render_slide` raise a ValueError (from
`int(element.get('fontSize', 48))`), so not every malformed input yields a
raster canvas. -/
theorem render_malformed_raises_counterexample :
    render_slide wNull []
      (.vDict [("elements", .vList [.vDict [("fontSize", .vStr "abc")]])])
      (.vDict []) 1 1 .vNone = .error .valueError := rfl

/-- Claim C1 (corrected): unparsable hex colors and missing resources do
fall back silently (`parse_color` never raises on a string, `load_image`
never raises), and on any well-typed input — numeric where `int()`/
`float()` is applied, string content, positive photo box dimensions —
`render_slide` always returns a canvas; but non-numeric values in the
coerced fields (fontSize, x, y, opacity, lineHeight, a truthy maxWidth,
width, height, borderRadius, overlay, photoZoom, photoPosition) raise
instead of falling back, so the claim's universal no-raise guarantee is
false as stated. -/
theorem render_totality_semantics (w : World) (slidev settingsv override : Val)
    (cache : FontCache) (n t : Int)
    (hw : worldImagesPos w)
    (h1 : wfSlide slidev = true) (h2 : wfSettings settingsv = true)
    (h3 : wfOverride override = true) :
    (∃ img, render_slide w cache slidev settingsv n t override = .ok img)
    ∧ (∀ s : String, ∃ c, parse_color (.vStr s) = .ok c) :=
  ⟨render_slide_total hw h1 h2 h3 cache n t,
   fun s => parse_color_ok (by simp [strOrFalsy, isStrB])⟩

/-- Witness for C1 (corrected): a concrete well-typed slide with a text
element, a photo element and a gradient background renders to a canvas,
and a malformed hex color is still accepted by the color parser. -/
theorem render_totality_semantics_witness :
    (∃ img, render_slide wNull []
      (.vDict [("background", .vDict [("color", .vStr "#zzz"), ("overlay", .vInt 40)]),
               ("elements", .vList
                 [.vDict [("content", .vStr "Hello *world*"), ("maxWidth", .vInt 800)],
                  .vDict [("type", .vStr "photo"), ("photo", .vStr "")]])])
      (.vDict [("username", .vStr "@me")]) 1 3 (.vStr "@ovr") = .ok img)
    ∧ (∃ c, parse_color (.vStr "#zzz") = .ok c) :=
  ⟨(render_totality_semantics wNull
      (.vDict [("background", .vDict [("color", .vStr "#zzz"), ("overlay", .vInt 40)]),
               ("elements", .vList
                 [.vDict [("content", .vStr "Hello *world*"), ("maxWidth", .vInt 800)],
                  .vDict [("type", .vStr "photo"), ("photo", .vStr "")]])])
      (.vDict [("username", .vStr "@me")]) (.vStr "@ovr") [] 1 3
      (fun s img h => absurd h (by simp [wNull]))
      (by decide) (by decide) (by decide)).1,
   (render_totality_semantics wNull
      (.vDict [("background", .vDict [("color", .vStr "#zzz"), ("overlay", .vInt 40)]),
               ("elements", .vList
                 [.vDict [("content", .vStr "Hello *world*"), ("maxWidth", .vInt 800)],
                  .vDict [("type", .vStr "photo"), ("photo", .vStr "")]])])
      (.vDict [("username", .vStr "@me")]) (.vStr "@ovr") [] 1 3
      (fun s img h => absurd h (by simp [wNull]))
      (by decide) (by decide) (by decide)).2 "#zzz"⟩

end Carousel
